import Mathlib

/-!
# y-mongodb-provider: a shallow embedding of the storage/log engine

This file embeds the core of the y-mongodb-provider repository
(`src/utils.js` and the `MongodbPersistence` class) into Lean 4 and proves
the specification's claims about it.

Modelling conventions:

* Byte payloads (`Uint8Array` / `Buffer`) are `List Nat`; machine bytes are
  values `< 256`, but no arithmetic here wraps, so the proofs carry byte
  bounds only where the source relies on them.
* MongoDB records live in an explicit `DB` state; every source function that
  touches the database becomes a pure function threading the `DB` value.
* JavaScript numbers holding clocks are `Int` (the sentinel `-1` is used by
  `getCurrentUpdateClock` and by the bulk-ingestion paths); record clocks,
  once stored, are `Nat`.
* The missing-`part` field of an update record (`part?: number`) is modelled
  as `part : Nat` with `0` meaning "absent": JavaScript's truthiness test
  `!doc.part` conflates `undefined` and `0`, and the source only ever writes
  parts `>= 1`, so this quotient is exact.
* Fallible code (`throw`) returns `Except String` / `Option`.
* The external collaboration engine (yjs) is an opaque capability
  (`YEngine`), exactly as the spec's §6 prescribes.
-/

namespace YMongo

/-- Bytes of a `Uint8Array` / `Buffer`. -/
abbrev Bytes := List Nat

/-- `MAX_DOCUMENT_SIZE` from `src/utils.js` line 9 (~15MB). -/
def MAX_DOCUMENT_SIZE : Nat := 15000000

/-- `binary.BITS32` from lib0 (`0xFFFFFFFF`), the exclusive clock bound used
by `getCurrentUpdateClock` (`src/utils.js` line 149). -/
def BITS32 : Nat := 4294967295

/-- `Number.MAX_SAFE_INTEGER`: lib0's `readVarUint` refuses to continue past
this value. -/
def MAX_SAFE_INTEGER : Nat := 9007199254740991

/-! ## The lib0 variable-length integer codec

`encoding.writeVarUint` / `decoding.readVarUint` and the length-prefixed
byte block `writeVarUint8Array` / `readVarUint8Array`, as used by
`writeStateVector`, `encodeStateVector` and `decodeMongodbStateVector`. -/

/-- lib0 `encoding.writeVarUint` on a non-negative number: 7 data bits per
byte, continuation bit `0x80`, least significant group first. -/
def writeVarUintNat (n : Nat) : Bytes :=
  if 127 < n then (128 + n % 128) :: writeVarUintNat (n / 128) else [n]
decreasing_by exact Nat.div_lt_self (by omega) (by omega)

/-- lib0 `encoding.writeVarUint` on a JavaScript number. A negative input
fails the loop guard `num > 127` immediately and a single byte
`BITS7 & num` (the low 7 bits of the two's complement, i.e. `num mod 128`)
is written: `writeVarUint (-1)` is the byte `127`. The bulk ingestion paths
really do call it with `-1`. -/
def writeVarUint (num : Int) : Bytes :=
  if 127 < num then writeVarUintNat num.toNat else [(num % 128).toNat]

/-- lib0 `encoding.writeVarUint8Array`: length as a varuint, then the raw
bytes. -/
def writeVarUint8Array (sv : Bytes) : Bytes :=
  writeVarUint (sv.length : Int) ++ sv

/-- lib0 `decoding.readVarUint`, as a pure function on the remaining bytes:
accumulator `num` and current multiplier `mult`; stops at the first byte
without the continuation bit; `none` models the thrown
"Unexpected end of array" / "Integer out of range!" errors. -/
def readVarUintAux : Bytes → Nat → Nat → Option (Nat × Bytes)
  | [], _, _ => none
  | r :: rest, num, mult =>
    let num' := num + (r % 128) * mult
    if r < 128 then some (num', rest)
    else if MAX_SAFE_INTEGER < num' then none
    else readVarUintAux rest num' (mult * 128)

/-- lib0 `decoding.readVarUint` from the start of the remaining bytes. -/
def readVarUint (bs : Bytes) : Option (Nat × Bytes) :=
  readVarUintAux bs 0 1

/-- lib0 `decoding.readVarUint8Array`: read a varuint length, then take that
many bytes (a short buffer throws in lib0, modelled as `none`). -/
def readVarUint8Array (bs : Bytes) : Option (Bytes × Bytes) :=
  (readVarUint bs).bind fun p =>
    if p.1 ≤ p.2.length then some (p.2.take p.1, p.2.drop p.1) else none

/-- `encodeStateVector` (`src/utils.js` lines 226-231): a varuint clock
followed by the length-prefixed summary bytes. `writeStateVector`
(lines 169-176) inlines the identical encoder. -/
def encodeStateVector (clock : Int) (sv : Bytes) : Bytes :=
  writeVarUint clock ++ writeVarUint8Array sv

/-- `decodeMongodbStateVector` (`src/utils.js` lines 438-450): read the
clock, then the summary block; the result pairs the decoded clock with the
summary bytes. -/
def decodeMongodbStateVector (buf : Bytes) : Option (Nat × Bytes) :=
  (readVarUint buf).bind fun p =>
    (readVarUint8Array p.2).map fun q => (p.1, q.1)

/-! ### Round-trip of the varint codec -/

theorem writeVarUintNat_eq (n : Nat) :
    writeVarUintNat n =
      if 127 < n then (128 + n % 128) :: writeVarUintNat (n / 128) else [n] := by
  rw [writeVarUintNat]

/-- On non-negative numbers the two encoders agree. -/
theorem writeVarUint_ofNat (n : Nat) : writeVarUint (n : Int) = writeVarUintNat n := by
  unfold writeVarUint
  by_cases h : 127 < n
  · rw [if_pos (by exact_mod_cast h), Int.toNat_ofNat]
  · rw [if_neg (by exact_mod_cast h), writeVarUintNat_eq, if_neg h]
    congr 1
    omega

/-- Core varint round-trip: decoding the encoding of `n` with pending
accumulator `acc` and multiplier `mult` yields `acc + n * mult` and leaves
the rest untouched, as long as the final value stays below
`MAX_SAFE_INTEGER` (lib0's overflow guard never fires). -/
theorem readVarUintAux_writeVarUintNat (n : Nat) : ∀ (acc mult : Nat) (rest : Bytes),
    0 < mult → acc + n * mult ≤ MAX_SAFE_INTEGER →
    readVarUintAux (writeVarUintNat n ++ rest) acc mult = some (acc + n * mult, rest) := by
  induction n using Nat.strong_induction_on with
  | _ n ih =>
    intro acc mult rest hmult hsafe
    rw [writeVarUintNat_eq]
    by_cases h : 127 < n
    · rw [if_pos h]
      have hb : ¬ (128 + n % 128 < 128) := by omega
      have hmod : (128 + n % 128) % 128 = n % 128 := by omega
      rw [List.cons_append, readVarUintAux]
      simp only [hmod, if_neg hb]
      have hle : acc + n % 128 * mult + n / 128 * (mult * 128) = acc + n * mult := by
        have : n % 128 + 128 * (n / 128) = n := Nat.mod_add_div n 128
        nlinarith [this]
      have hguard : ¬ (MAX_SAFE_INTEGER < acc + n % 128 * mult) := by
        have h1 : n % 128 * mult ≤ n * mult :=
          Nat.mul_le_mul_right mult (Nat.mod_le n 128)
        omega
      rw [if_neg hguard]
      rw [ih (n / 128) (Nat.div_lt_self (by omega) (by omega))
            (acc + n % 128 * mult) (mult * 128) rest (by positivity) (by omega)]
      rw [hle]
    · rw [if_neg h]
      rw [List.cons_append, readVarUintAux]
      simp only [if_pos (show n < 128 by omega), Nat.mod_eq_of_lt (show n < 128 by omega),
        List.nil_append]

/-- Decoding starts a fresh accumulator: the encoding of `n` reads back as
`n`. -/
theorem readVarUint_writeVarUintNat (n : Nat) (rest : Bytes)
    (h : n ≤ MAX_SAFE_INTEGER) :
    readVarUint (writeVarUintNat n ++ rest) = some (n, rest) := by
  unfold readVarUint
  rw [readVarUintAux_writeVarUintNat n 0 1 rest (by omega) (by omega)]
  simp

/-- Round-trip of the length-prefixed byte block. -/
theorem readVarUint8Array_writeVarUint8Array (sv : Bytes) (rest : Bytes)
    (h : sv.length ≤ MAX_SAFE_INTEGER) :
    readVarUint8Array (writeVarUint8Array sv ++ rest) = some (sv, rest) := by
  unfold readVarUint8Array writeVarUint8Array
  rw [writeVarUint_ofNat, List.append_assoc,
    readVarUint_writeVarUintNat sv.length (sv ++ rest) h]
  simp [Option.bind]

/-- Round-trip of the whole state-vector codec for a non-negative clock. -/
theorem decode_encodeStateVector (clock : Nat) (sv : Bytes) (rest : Bytes)
    (hclock : clock ≤ MAX_SAFE_INTEGER) (hsv : sv.length ≤ MAX_SAFE_INTEGER) :
    decodeMongodbStateVector (encodeStateVector (clock : Int) sv ++ rest) =
      some (clock, sv) := by
  unfold decodeMongodbStateVector encodeStateVector
  rw [writeVarUint_ofNat, List.append_assoc,
    readVarUint_writeVarUintNat clock (writeVarUint8Array sv ++ rest) hclock]
  simp only [Option.some_bind]
  rw [readVarUint8Array_writeVarUint8Array sv rest hsv]
  rfl

/-! ## The data model: update records, state-vector records, the store

`createDocumentUpdateKey` (`src/utils.js` lines 35-50) keys an update record
by `(version: "v1", action: "update", docName, clock)`, plus a `part` field
for chunked records; `createDocumentStateVectorKey` (lines 57-60) keys the
single state-vector record per document by `(docName, version: "v1_sv")`.
The constant version/action tags never vary among update records, so an
update record is `(docName, clock, part, value)` and the state-vector table
maps `docName` to its encoded value. -/

/-- One MongoDB update record. `part = 0` models an absent `part` field
(JavaScript's `!doc.part` is true exactly on `undefined` and `0`, and the
source writes only parts `>= 1`). -/
structure UpdateRecord where
  docName : String
  clock : Nat
  part : Nat
  value : Bytes
deriving Repr, DecidableEq

/-- The persistent store visible to `src/utils.js`: the update records and
the state-vector records (`version: "v1_sv"`), one value per document. Meta
records never interact with the claims and are omitted. -/
structure DB where
  updates : List UpdateRecord
  svs : List (String × Bytes)
deriving Repr, DecidableEq

/-- Two update records collide on the same MongoDB key
`(version, action, docName, clock, part?)`. -/
def sameUpdateKey (a b : UpdateRecord) : Bool :=
  a.docName == b.docName && a.clock == b.clock && a.part == b.part

/-- `db.put` on an update-record key: an upsert — any record at the same key
is replaced, otherwise the record is added. -/
def putUpdate (db : DB) (rec : UpdateRecord) : DB :=
  { db with updates := db.updates.filter (fun r => !sameUpdateKey r rec) ++ [rec] }

/-- `db.put` on the state-vector key of `docName`: an upsert of the single
`v1_sv` record of the document. -/
def svPut (db : DB) (docName : String) (value : Bytes) : DB :=
  { db with svs := db.svs.filter (fun e => !(e.1 == docName)) ++ [(docName, value)] }

/-- `db.findOne` on the state-vector key: the document's `v1_sv` value, if
any. -/
def svLookup (db : DB) (docName : String) : Option Bytes :=
  (db.svs.find? (fun e => e.1 == docName)).map (fun e => e.2)

/-- The external collaboration engine (yjs), an opaque capability per spec
§6: `deriveSummary` is `Y.encodeStateVector` of a fresh `Y.Doc` after
`Y.applyUpdate`; `merge` replays a list of updates and re-encodes
`(Y.encodeStateAsUpdate, Y.encodeStateVector)`. -/
structure YEngine where
  deriveSummary : Bytes → Bytes
  merge : List Bytes → Bytes × Bytes

/-- `mergeUpdates` (`src/utils.js` lines 424-432): wholly delegated to the
collaboration engine. -/
def mergeUpdates (eng : YEngine) (updates : List Bytes) : Bytes × Bytes :=
  eng.merge updates

/-! ## The Update Log -/

/-- Maximum of a list of clocks as a JavaScript number, `-1` when the list
is empty — the shape `db.findOne({..., clock: {$gte: 0, $lt: BITS32}},
{reverse: true})` followed by the `-1` default takes. -/
def maxClockInt (l : List Nat) : Int :=
  l.foldr (fun c m => max (c : Int) m) (-1)

/-- The clocks of the update records of `docName` inside the valid range
`[0, BITS32)`. -/
def matchClocks (db : DB) (docName : String) : List Nat :=
  (db.updates.filter (fun r => r.docName == docName && decide (r.clock < BITS32))).map
    (fun r => r.clock)

/-- `getCurrentUpdateClock` (`src/utils.js` lines 142-160): the maximum
clock among the document's update records restricted to `[0, BITS32)`, or
`-1` if there is none. -/
def getCurrentUpdateClock (db : DB) (docName : String) : Int :=
  maxClockInt (matchClocks db docName)

/-- Number of chunks `Math.ceil(update.length / MAX_DOCUMENT_SIZE)`
(`src/utils.js` line 201). -/
def totalChunks (len : Nat) : Nat :=
  (len + MAX_DOCUMENT_SIZE - 1) / MAX_DOCUMENT_SIZE

/-- The chunk records built by the oversize branch of `storeUpdate`
(`src/utils.js` lines 203-212): chunk `i` is
`update.subarray(i*MAX, min((i+1)*MAX, len))`, stored under the shared
`clock` with `part: i + 1`. -/
def splitChunks (docName : String) (clock : Nat) (update : Bytes) : List UpdateRecord :=
  (List.range (totalChunks update.length)).map fun i =>
    ⟨docName, clock, i + 1, (update.drop (i * MAX_DOCUMENT_SIZE)).take MAX_DOCUMENT_SIZE⟩

/-- `writeStateVector` (`src/utils.js` lines 169-176): upsert the `v1_sv`
record with the varuint clock followed by the length-prefixed summary (the
inlined encoder produces exactly `encodeStateVector clock sv`). -/
def writeStateVector (db : DB) (docName : String) (sv : Bytes) (clock : Int) : DB :=
  svPut db docName (encodeStateVector clock sv)

/-- `storeUpdate` (`src/utils.js` lines 184-218): read the current clock;
when it is `-1`, first persist an initial state vector at clock `0` derived
from the update via the engine; then store the update at `clock + 1`,
chunked when it exceeds `MAX_DOCUMENT_SIZE`; return `clock + 1`. -/
def storeUpdate (eng : YEngine) (db : DB) (docName : String) (update : Bytes) :
    DB × Int :=
  let clock := getCurrentUpdateClock db docName
  let db1 := if clock = -1 then
      writeStateVector db docName (eng.deriveSummary update) 0
    else db
  let db2 := if update.length ≤ MAX_DOCUMENT_SIZE then
      putUpdate db1 ⟨docName, (clock + 1).toNat, 0, update⟩
    else
      (splitChunks docName (clock + 1).toNat update).foldl putUpdate db1
  (db2, clock + 1)

/-- `clearUpdatesRange` (`src/utils.js` lines 20-27): delete the document's
update records with `lo ≤ clock < hi`. -/
def clearUpdatesRange (db : DB) (docName : String) (lo hi : Int) : DB :=
  { db with updates := db.updates.filter fun r =>
      !(r.docName == docName && decide (lo ≤ (r.clock : Int)) && decide ((r.clock : Int) < hi)) }

/-! ## The Chunk Codec: `convertMongoUpdates` -/

/-- The error message thrown at `src/utils.js` line 107. -/
def partMissingMsg : String := "Couldnt merge updates together because a part is missing!"

/-- The inner loop of `convertMongoUpdates` (`src/utils.js` lines 101-114):
starting after a record flagged `part == 1`, absorb subsequent records that
are flagged and share the opening record's clock, insisting that part
numbers increase by exactly one; return the absorbed values and how many
records were consumed. A contiguity break inside the group throws. -/
def gatherParts (clock : Nat) : Nat → List UpdateRecord → Except String (List Bytes × Nat)
  | _, [] => .ok ([], 0)
  | currentPartId, r :: rest =>
    if r.part ≠ 0 ∧ r.clock = clock then
      if currentPartId ≠ r.part - 1 then .error partMissingMsg
      else
        match gatherParts clock r.part rest with
        | .error e => .error e
        | .ok (ps, k) => .ok (r.value :: ps, k + 1)
    else .ok ([], 0)

/-- `convertMongoUpdates` (`src/utils.js` lines 89-121) on the ordered
record list: an unflagged record is one logical update; a record flagged
`part == 1` opens a multi-part update whose parts are gathered and
concatenated; a record flagged with any other part number at the top of the
scan is skipped by the loop (neither `!doc.part` nor `doc.part === 1`
holds). -/
def convertMongoUpdates (docs : List UpdateRecord) : Except String (List Bytes) :=
  match docs with
  | [] => .ok []
  | doc :: rest =>
    if doc.part = 0 then
      match convertMongoUpdates rest with
      | .error e => .error e
      | .ok us => .ok (doc.value :: us)
    else if doc.part = 1 then
      match gatherParts doc.clock 1 rest with
      | .error e => .error e
      | .ok (ps, k) =>
        match convertMongoUpdates (rest.drop k) with
        | .error e => .error e
        | .ok us => .ok ((doc.value :: ps).flatten :: us)
    else convertMongoUpdates rest
termination_by docs.length
decreasing_by
  all_goals simp only [List.length_drop, List.length_cons]
  all_goals omega

/-- Record order used by the store when listing a document's updates:
by `(clock, part)`.

Modelled from the spec: the `MongoAdapter` (not under `src/`) executes
`db.find(createDocumentUpdateKey(docName))`; per spec §4.1 the records come
back "ordered by `(clock, part)`". -/
def updateOrder (a b : UpdateRecord) : Prop :=
  a.clock < b.clock ∨ (a.clock = b.clock ∧ a.part ≤ b.part)

instance : DecidableRel updateOrder := fun a b => by
  unfold updateOrder; infer_instance

/-- The ordered update records of one document, as `db.find` returns them. -/
def findUpdates (db : DB) (docName : String) : List UpdateRecord :=
  (db.updates.filter (fun r => r.docName == docName)).insertionSort updateOrder

/-- `getMongoUpdates` (`src/utils.js` lines 130-135): fetch the ordered
records and reassemble the logical updates. -/
def getMongoUpdates (db : DB) (docName : String) : Except String (List Bytes) :=
  convertMongoUpdates (findUpdates db docName)

/-- `flushDocument` (`src/utils.js` lines 479-484): append the consolidated
update via `storeUpdate`, stamp the state vector with the new clock, then
truncate every older update record; return the new clock. -/
def flushDocument (eng : YEngine) (db : DB) (docName : String)
    (stateAsUpdate stateVector : Bytes) : DB × Int :=
  let r1 := storeUpdate eng db docName stateAsUpdate
  let db2 := writeStateVector r1.1 docName stateVector r1.2
  let db3 := clearUpdatesRange db2 docName 0 r1.2
  (db3, r1.2)

/-! ## The State Vector Cache read path and `MongodbPersistence` -/

/-- `readStateVector` (`src/utils.js` lines 456-463): `(null, -1)` when the
document has no `v1_sv` record; otherwise decode it (lib0 throws on a
malformed buffer, modelled as the error case). -/
def readStateVector (db : DB) (docName : String) :
    Except String (Option Bytes × Int) :=
  match svLookup db docName with
  | none => .ok (none, -1)
  | some v =>
    match decodeMongodbStateVector v with
    | none => .error "Unexpected end of array"
    | some p => .ok (some p.2, (p.1 : Int))

/-- The stale-cache branch of `MongodbPersistence.getStateVector`
(`src/unnamed/part_000` lines 110-114): read all updates, merge them via
the engine, flush, and return the freshly computed state vector. -/
def getStateVectorFlushPath (eng : YEngine) (db : DB) (docName : String) :
    Except String (DB × Bytes) :=
  match getMongoUpdates db docName with
  | .error e => .error e
  | .ok updates =>
    let m := mergeUpdates eng updates
    .ok ((flushDocument eng db docName m.1 m.2).1, m.2)

/-- `MongodbPersistence.getStateVector` (`src/unnamed/part_000` lines
100-117), with the transaction wrapper peeled off: return the cached state
vector when one exists and its clock equals `getCurrentUpdateClock`,
otherwise recompute through a full merge-and-flush. -/
def pGetStateVector (eng : YEngine) (db : DB) (docName : String) :
    Except String (DB × Bytes) :=
  match readStateVector db docName with
  | .error e => .error e
  | .ok (sv?, clock) =>
    let curClock : Int := match sv? with
      | some _ => getCurrentUpdateClock db docName
      | none => -1
    match sv? with
    | some sv =>
      if clock = curClock then .ok (db, sv)
      else getStateVectorFlushPath eng db docName
    | none => getStateVectorFlushPath eng db docName

/-- `MongodbPersistence.flushDocument` (`src/unnamed/part_000` lines
224-230), with the transaction wrapper peeled off: merge the document's
stored updates via the engine and flush. The source returns void; the model
returns the resulting store. -/
def pFlushDocument (eng : YEngine) (db : DB) (docName : String) :
    Except String DB :=
  match getMongoUpdates db docName with
  | .error e => .error e
  | .ok updates =>
    let m := mergeUpdates eng updates
    .ok (flushDocument eng db docName m.1 m.2).1

/-! ## The Transaction Serializer (`MongodbPersistence._transact`)

`src/unnamed/part_000` lines 37-56. The chained promise runs the operation
body and catches any error: `res` stays `null`, the error goes to
`console.warn("Error during saving transaction", err)`, and the promise
handed back to the caller RESOLVES with `res`. An operation body is
modelled by its outcome `Except ε α`; the wrapper maps it to the
caller-visible settled outcome (an `Except` that is only ever `ok`,
carrying `none` for the JavaScript `null`) together with the list of
errors logged. -/
def transactOutcome {ε α : Type} (body : Except ε α) :
    Except ε (Option α) × List ε :=
  match body with
  | .ok a => (.ok (some a), [])
  | .error e => (.ok none, [e])

/-- A queue of operation bodies submitted to one document's chain, executed
in order. Because the wrapper's promise always resolves, the next queued
operation always runs; the chain collects every caller-visible outcome and
the accumulated log. -/
def transactChain {ε α : Type} (bodies : List (Except ε α)) :
    List (Except ε (Option α)) × List ε :=
  match bodies with
  | [] => ([], [])
  | b :: bs =>
    let r := transactOutcome b
    let rs := transactChain bs
    (r.1 :: rs.1, r.2 ++ rs.2)

/-! ## The bulk-write retry wrapper (`retryMongoOperation`) -/

/-- The MongoDB driver errors distinguished by `retryMongoOperation`
(`src/utils.js` line 243). -/
inductive MongoError where
  | networkError : MongoError
  | networkTimeoutError : MongoError
  | bulkWriteError : MongoError
  | otherError : String → MongoError
deriving Repr, DecidableEq

/-- The `instanceof MongoNetworkError || MongoNetworkTimeoutError ||
MongoBulkWriteError` test. -/
def isRetriableMongoError : MongoError → Bool
  | .otherError _ => false
  | _ => true

/-- The retry loop of `retryMongoOperation` (`src/utils.js` lines 237-257).
`task attempt` is the outcome of the task's `attempt`-th run; the countdown
starts at `retries`. The result pairs the surfaced outcome (`Except` error
`none` models the `throw lastError` with `lastError` still undefined, which
happens only when `retries = 0`) with the list of sleeps performed. -/
def retryGo {α : Type} (task : Nat → Except MongoError α) (delayMs : Nat) :
    Nat → Nat → Option MongoError → List Nat →
    Except (Option MongoError) α × List Nat
  | 0, _, last, delays => (.error last, delays)
  | remaining + 1, attempt, _, delays =>
    match task attempt with
    | .ok a => (.ok a, delays)
    | .error e =>
      if isRetriableMongoError e then
        if remaining = 0 then (.error (some e), delays)
        else retryGo task delayMs remaining (attempt + 1) (some e) (delays ++ [delayMs])
      else (.error (some e), delays)

/-- `retryMongoOperation(task, retries, delay)`: attempts start at 1 with no
error recorded and no sleeps performed. -/
def retryMongoOperation {α : Type} (task : Nat → Except MongoError α)
    (retries delayMs : Nat) : Except (Option MongoError) α × List Nat :=
  retryGo task delayMs retries 1 none []

/-! ## Multi-document bulk ingestion (`storeUpdates` / `insertUpdates`)

`src/utils.js` lines 264-350 and 357-415 build, for the whole call, a
state-vector map and an update map from one shared `let clock = -1` that is
never reassigned (the guard `if (clock === -1)` is always true), then hand
the maps to the Bulk Writer. The two functions build the maps with
identical code and differ only in using `bulkPut` (upsert) versus
`bulkInsert`. -/

/-- The shared per-call starting clock of the bulk ingestion paths
(`src/utils.js` lines 265 and 358): initialised to `-1` and never updated. -/
def bulkStartClock : Int := -1

/-- The `stateVectorMap` of `storeUpdates`/`insertUpdates`: for every entry
the summary derived from that document's update, encoded with the shared
clock — still `-1`, unlike the `0` that `storeUpdate` writes. -/
def buildStateVectorEntries (eng : YEngine) (updatesMap : List (String × Bytes)) :
    List (String × Bytes) :=
  updatesMap.map fun e =>
    (e.1, encodeStateVector bulkStartClock (eng.deriveSummary e.2))

/-- The `updateMap` of `storeUpdates`/`insertUpdates`: each update keyed by
its document name (or `docName-partN` for its chunks) and stored at clock
`(bulkStartClock + 1).toNat = 0`, regardless of any records already stored
for the document. -/
def buildUpdateEntries (updatesMap : List (String × Bytes)) :
    List (String × UpdateRecord) :=
  updatesMap.flatMap fun e =>
    if e.2.length ≤ MAX_DOCUMENT_SIZE then
      [(e.1, ⟨e.1, (bulkStartClock + 1).toNat, 0, e.2⟩)]
    else
      (List.range (totalChunks e.2.length)).map fun i =>
        (e.1 ++ "-part" ++ toString (i + 1),
          ⟨e.1, (bulkStartClock + 1).toNat, i + 1,
            (e.2.drop (i * MAX_DOCUMENT_SIZE)).take MAX_DOCUMENT_SIZE⟩)

/-- `db.bulkPut` over the state-vector map: upsert every entry. -/
def bulkPutSvs (db : DB) (entries : List (String × Bytes)) : DB :=
  entries.foldl (fun d e => svPut d e.1 e.2) db

/-- `db.bulkPut` over the update map: upsert every record. -/
def bulkPutUpdates (db : DB) (entries : List (String × UpdateRecord)) : DB :=
  entries.foldl (fun d e => putUpdate d e.2) db

/-- `db.bulkInsert`: insert-only writes (every inserted MongoDB document
gets a fresh `_id`, so inserts always add records). -/
def bulkInsertSvs (db : DB) (entries : List (String × Bytes)) : DB :=
  { db with svs := db.svs ++ entries }

/-- `db.bulkInsert` over the update map. -/
def bulkInsertUpdates (db : DB) (entries : List (String × UpdateRecord)) : DB :=
  { db with updates := db.updates ++ entries.map (fun e => e.2) }

/-- `storeUpdates` (`src/utils.js` lines 264-350): build both maps, write
them through the batched/retried `bulkPut` path, return
`bulkStartClock + 1 = 0`. -/
def storeUpdates (eng : YEngine) (db : DB) (updatesMap : List (String × Bytes)) :
    DB × Int :=
  (bulkPutUpdates (bulkPutSvs db (buildStateVectorEntries eng updatesMap))
      (buildUpdateEntries updatesMap),
    bulkStartClock + 1)

/-- `insertUpdates` (`src/utils.js` lines 357-415): the same maps written
through `bulkInsert`, returning `bulkStartClock + 1 = 0`. -/
def insertUpdates (eng : YEngine) (db : DB) (updatesMap : List (String × Bytes)) :
    DB × Int :=
  (bulkInsertUpdates (bulkInsertSvs db (buildStateVectorEntries eng updatesMap))
      (buildUpdateEntries updatesMap),
    bulkStartClock + 1)

/-- Repeated `storeUpdate` calls on one document, collecting the returned
clocks in order — the serialized `appendUpdate` sequence of the claims. -/
def storeUpdateSeq (eng : YEngine) (db : DB) (docName : String) :
    List Bytes → DB × List Int
  | [] => (db, [])
  | u :: us =>
    let r := storeUpdate eng db docName u
    let rest := storeUpdateSeq eng r.1 docName us
    (rest.1, r.2 :: rest.2)

/-! ## Lemmas about the clock maximum -/

theorem maxClockInt_neg_one_le (l : List Nat) : -1 ≤ maxClockInt l := by
  induction l with
  | nil => simp [maxClockInt]
  | cons c t ih =>
    simp only [maxClockInt, List.foldr_cons] at *
    exact le_trans ih (le_max_right _ _)

theorem maxClockInt_le_iff {x : Int} (l : List Nat) (hx : -1 ≤ x) :
    maxClockInt l ≤ x ↔ ∀ c ∈ l, (c : Int) ≤ x := by
  induction l with
  | nil =>
    constructor
    · intro _ c hc
      simp at hc
    · intro _
      exact hx
  | cons a t ih =>
    have hfold : maxClockInt (a :: t) = max (a : Int) (maxClockInt t) := rfl
    rw [hfold, max_le_iff, ih]
    constructor
    · intro h1 c hc
      rcases List.mem_cons.mp hc with rfl | hc
      · exact h1.1
      · exact h1.2 c hc
    · intro hall
      exact ⟨hall a (List.mem_cons_self a t),
        fun c hc => hall c (List.mem_cons_of_mem a hc)⟩

theorem le_maxClockInt_of_mem {c : Nat} {l : List Nat} (h : c ∈ l) :
    (c : Int) ≤ maxClockInt l := by
  induction l with
  | nil => cases h
  | cons d t ih =>
    simp only [maxClockInt, List.foldr_cons]
    rcases List.mem_cons.mp h with rfl | hm
    · exact le_max_left _ _
    · exact le_trans (ih hm) (le_max_right _ _)

theorem mem_matchClocks {db : DB} {docName : String} {c : Nat} :
    c ∈ matchClocks db docName ↔
      ∃ r ∈ db.updates, r.docName = docName ∧ r.clock < BITS32 ∧ r.clock = c := by
  simp only [matchClocks, List.mem_map, List.mem_filter, Bool.and_eq_true, beq_iff_eq,
    decide_eq_true_eq]
  constructor
  · rintro ⟨r, ⟨⟨hr, hn, hb⟩, rfl⟩⟩
    exact ⟨r, hr, hn, hb, rfl⟩
  · rintro ⟨r, hr, hn, hb, rfl⟩
    exact ⟨r, ⟨hr, hn, hb⟩, rfl⟩

/-- Upper bound on the current clock from a bound on every matching
record. -/
theorem getCurrentUpdateClock_le {db : DB} {docName : String} {x : Int} (hx : -1 ≤ x)
    (h : ∀ r ∈ db.updates, r.docName = docName → r.clock < BITS32 → (r.clock : Int) ≤ x) :
    getCurrentUpdateClock db docName ≤ x := by
  rw [getCurrentUpdateClock, maxClockInt_le_iff _ hx]
  intro c hc
  obtain ⟨r, hr, hn, hb, rfl⟩ := mem_matchClocks.mp hc
  exact h r hr hn hb

/-- Lower bound on the current clock from one matching record. -/
theorem le_getCurrentUpdateClock {db : DB} {docName : String} {r : UpdateRecord}
    (hr : r ∈ db.updates) (hn : r.docName = docName) (hb : r.clock < BITS32) :
    (r.clock : Int) ≤ getCurrentUpdateClock db docName :=
  le_maxClockInt_of_mem (mem_matchClocks.mpr ⟨r, hr, hn, hb, rfl⟩)

theorem neg_one_le_getCurrentUpdateClock (db : DB) (docName : String) :
    -1 ≤ getCurrentUpdateClock db docName :=
  maxClockInt_neg_one_le _

/-- The exact current clock of a store whose matching in-range records are
bounded by `m` and include a record at `m`. -/
theorem getCurrentUpdateClock_eq {db : DB} {docName : String} {m : Nat}
    (hub : ∀ r ∈ db.updates, r.docName = docName → r.clock < BITS32 →
      (r.clock : Int) ≤ (m : Int))
    (hmem : ∃ r ∈ db.updates, r.docName = docName ∧ r.clock = m)
    (hm : m < BITS32) :
    getCurrentUpdateClock db docName = (m : Int) := by
  obtain ⟨r, hr, hn, hc⟩ := hmem
  subst hc
  refine le_antisymm ?_ (le_getCurrentUpdateClock hr hn hm)
  exact getCurrentUpdateClock_le (by omega) hub

/-- A store with no matching records reports `-1`. -/
theorem getCurrentUpdateClock_eq_neg_one {db : DB} {docName : String}
    (h : ∀ r ∈ db.updates, r.docName ≠ docName) :
    getCurrentUpdateClock db docName = -1 := by
  refine le_antisymm ?_ (neg_one_le_getCurrentUpdateClock db docName)
  exact getCurrentUpdateClock_le le_rfl fun r hr hn _ => absurd hn (h r hr)

/-! ## Lemmas about writes -/

theorem svPut_updates (db : DB) (d : String) (v : Bytes) :
    (svPut db d v).updates = db.updates := rfl

theorem writeStateVector_updates (db : DB) (d : String) (sv : Bytes) (clock : Int) :
    (writeStateVector db d sv clock).updates = db.updates := rfl

theorem putUpdate_svs (db : DB) (rec : UpdateRecord) :
    (putUpdate db rec).svs = db.svs := rfl

theorem clearUpdatesRange_svs (db : DB) (d : String) (lo hi : Int) :
    (clearUpdatesRange db d lo hi).svs = db.svs := rfl

theorem foldl_putUpdate_svs (recs : List UpdateRecord) (db : DB) :
    (recs.foldl putUpdate db).svs = db.svs := by
  induction recs generalizing db with
  | nil => rfl
  | cons r t ih => simp [List.foldl_cons, ih, putUpdate_svs]

/-- Membership after a `putUpdate`: an old record that survived, or the
fresh one. -/
theorem mem_putUpdate {db : DB} {rec r : UpdateRecord}
    (h : r ∈ (putUpdate db rec).updates) : r ∈ db.updates ∨ r = rec := by
  rcases List.mem_append.mp h with hl | hr
  · exact Or.inl (List.mem_of_mem_filter hl)
  · exact Or.inr (List.mem_singleton.mp hr)

theorem self_mem_putUpdate (db : DB) (rec : UpdateRecord) :
    rec ∈ (putUpdate db rec).updates :=
  List.mem_append.mpr (Or.inr (List.mem_singleton.mpr rfl))

theorem mem_foldl_putUpdate {recs : List UpdateRecord} {db : DB} {r : UpdateRecord}
    (h : r ∈ (recs.foldl putUpdate db).updates) : r ∈ db.updates ∨ r ∈ recs := by
  induction recs generalizing db with
  | nil => exact Or.inl h
  | cons a t ih =>
    rcases ih (by simpa using h) with hd | ht
    · rcases mem_putUpdate hd with h1 | h1
      · exact Or.inl h1
      · exact Or.inr (h1 ▸ List.mem_cons_self a t)
    · exact Or.inr (List.mem_cons_of_mem a ht)

/-- The record put last survives the whole fold. -/
theorem getLast_mem_foldl_putUpdate : ∀ (recs : List UpdateRecord) (db : DB)
    (rec : UpdateRecord), recs.getLast? = some rec →
    rec ∈ (recs.foldl putUpdate db).updates
  | [], _, _, h => by simp at h
  | [a], db, rec, h => by
    simp only [List.getLast?_singleton, Option.some_inj] at h
    simpa [List.foldl_cons, h] using self_mem_putUpdate db a
  | a :: b :: t, db, rec, h => by
    rw [List.getLast?_cons_cons] at h
    simpa using getLast_mem_foldl_putUpdate (b :: t) (putUpdate db a) rec h

/-- Looking up the state vector just written. -/
theorem svLookup_svPut_self (db : DB) (d : String) (v : Bytes) :
    svLookup (svPut db d v) d = some v := by
  unfold svLookup svPut
  have h1 : List.find? (fun e => e.1 == d) (db.svs.filter (fun e => !(e.1 == d))) =
      none := by
    rw [List.find?_eq_none]
    intro x hx
    have hq := (List.mem_filter.mp hx).2
    simp only [Bool.not_eq_true', beq_eq_false_iff_ne, ne_eq] at hq
    simp [hq]
  simp [List.find?_append, h1, List.find?]

/-- State-vector lookups for other documents are untouched by `svPut`. -/
theorem svLookup_svPut_ne (db : DB) (d d' : String) (v : Bytes) (h : d' ≠ d) :
    svLookup (svPut db d v) d' = svLookup db d' := by
  unfold svLookup svPut
  have h2 : List.find? (fun e => e.1 == d') [(d, v)] = none := by
    rw [List.find?_cons_of_neg _ (by simpa using Ne.symm h)]
    rfl
  have h3 : List.find? (fun e => e.1 == d') (db.svs.filter (fun e => !(e.1 == d))) =
      List.find? (fun e => e.1 == d') db.svs := by
    induction db.svs with
    | nil => rfl
    | cons a t ih =>
      rw [List.filter_cons]
      by_cases had : a.1 = d
      · have hpa : ¬ ((a.1 == d') = true) := by
          simp only [beq_iff_eq, had]
          exact Ne.symm h
        rw [if_neg (by simp [had]), List.find?_cons_of_neg t hpa]
        exact ih
      · rw [if_pos (by simp [had])]
        by_cases hpa : a.1 = d'
        · rw [List.find?_cons_of_pos _ (by simp [hpa]),
            List.find?_cons_of_pos t (by simp [hpa])]
        · rw [List.find?_cons_of_neg _ (by simp [hpa]),
            List.find?_cons_of_neg t (by simp [hpa])]
          exact ih
  simp [List.find?_append, h3, h2]

theorem svLookup_congr {db1 db2 : DB} (d : String) (h : db1.svs = db2.svs) :
    svLookup db1 d = svLookup db2 d := by
  unfold svLookup
  rw [h]

/-- Every chunk record of a split shares the document name and clock and is
flagged with a positive part number. -/
theorem mem_splitChunks {d : String} {c0 : Nat} {u : Bytes} {r : UpdateRecord}
    (h : r ∈ splitChunks d c0 u) : r.docName = d ∧ r.clock = c0 ∧ 1 ≤ r.part := by
  obtain ⟨i, _, rfl⟩ := List.mem_map.mp h
  refine ⟨rfl, rfl, ?_⟩
  show 1 ≤ i + 1
  omega

theorem totalChunks_pos {len : Nat} (h : 0 < len) : 0 < totalChunks len := by
  apply Nat.div_pos
  · unfold MAX_DOCUMENT_SIZE
    omega
  · norm_num [MAX_DOCUMENT_SIZE]

theorem splitChunks_ne_nil (d : String) (c0 : Nat) (u : Bytes) (h : 0 < u.length) :
    splitChunks d c0 u ≠ [] := by
  intro hcon
  unfold splitChunks at hcon
  have h0 := totalChunks_pos h
  rcases List.map_eq_nil_iff.mp hcon with hr
  rw [List.range_eq_nil] at hr
  omega

theorem exists_getLast?_of_ne_nil {α : Type} (l : List α) (h : l ≠ []) :
    ∃ a, l.getLast? = some a ∧ a ∈ l := by
  cases l with
  | nil => exact absurd rfl h
  | cons x t =>
    refine ⟨(x :: t).getLast (by simp), ?_, List.getLast_mem _⟩
    rw [List.getLast?_eq_getLast _ (by simp)]

/-- The state of the `if`-guarded initial state-vector write of
`storeUpdate` has the same update records as the input store. -/
theorem storeUpdate_db1_updates (eng : YEngine) (db : DB) (d : String) (u : Bytes) :
    (if getCurrentUpdateClock db d = -1 then
        writeStateVector db d (eng.deriveSummary u) 0
      else db).updates = db.updates := by
  split <;> rfl

/-- `storeUpdate` returns `currentClock + 1` — the defining equation of the
returned clock. -/
theorem storeUpdate_snd (eng : YEngine) (db : DB) (d : String) (u : Bytes) :
    (storeUpdate eng db d u).2 = getCurrentUpdateClock db d + 1 := rfl

/-- The clock step: as long as the next clock stays inside the valid range,
storing an update advances the document's current clock to exactly the
returned clock. -/
theorem getCurrentUpdateClock_storeUpdate (eng : YEngine) (db : DB) (d : String)
    (u : Bytes) (h : getCurrentUpdateClock db d + 1 < (BITS32 : Int)) :
    getCurrentUpdateClock (storeUpdate eng db d u).1 d =
      getCurrentUpdateClock db d + 1 := by
  have hge : (0 : Int) ≤ getCurrentUpdateClock db d + 1 := by
    have := neg_one_le_getCurrentUpdateClock db d
    omega
  have hcast : (((getCurrentUpdateClock db d + 1).toNat : Nat) : Int) =
      getCurrentUpdateClock db d + 1 := Int.toNat_of_nonneg hge
  have hlt : (getCurrentUpdateClock db d + 1).toNat < BITS32 := by omega
  have key : ∀ db2 : DB,
      (∀ r ∈ db2.updates, r ∈ db.updates ∨
        (r.docName = d ∧ r.clock = (getCurrentUpdateClock db d + 1).toNat)) →
      (∃ r ∈ db2.updates, r.docName = d ∧
        r.clock = (getCurrentUpdateClock db d + 1).toNat) →
      getCurrentUpdateClock db2 d = getCurrentUpdateClock db d + 1 := by
    intro db2 hall hex
    rw [← hcast]
    refine getCurrentUpdateClock_eq ?_ hex hlt
    intro r hr hrn hrb
    rcases hall r hr with hold | hnew
    · have := le_getCurrentUpdateClock hold hrn hrb
      omega
    · rw [hnew.2]
  by_cases hlen : u.length ≤ MAX_DOCUMENT_SIZE
  · have hres : (storeUpdate eng db d u).1 =
        putUpdate (if getCurrentUpdateClock db d = -1 then
            writeStateVector db d (eng.deriveSummary u) 0
          else db)
          ⟨d, (getCurrentUpdateClock db d + 1).toNat, 0, u⟩ := by
      rw [storeUpdate]
      simp only [hlen, if_pos]
    rw [hres]
    refine key _ ?_ ?_
    · intro r hr
      rcases mem_putUpdate hr with hold | rfl
      · rw [storeUpdate_db1_updates] at hold
        exact Or.inl hold
      · exact Or.inr ⟨rfl, rfl⟩
    · refine ⟨_, self_mem_putUpdate _ _, rfl, rfl⟩
  · have hres : (storeUpdate eng db d u).1 =
        (splitChunks d (getCurrentUpdateClock db d + 1).toNat u).foldl putUpdate
          (if getCurrentUpdateClock db d = -1 then
            writeStateVector db d (eng.deriveSummary u) 0
          else db) := by
      rw [storeUpdate]
      simp only [hlen, if_neg, if_false]
    rw [hres]
    refine key _ ?_ ?_
    · intro r hr
      rcases mem_foldl_putUpdate hr with hold | hnew
      · rw [storeUpdate_db1_updates] at hold
        exact Or.inl hold
      · have := mem_splitChunks hnew
        exact Or.inr ⟨this.1, this.2.1⟩
    · obtain ⟨rec, hrlast, hrmem⟩ := exists_getLast?_of_ne_nil _
        (splitChunks_ne_nil d ((getCurrentUpdateClock db d + 1).toNat) u
          (by unfold MAX_DOCUMENT_SIZE at hlen; omega))
      have hprops := mem_splitChunks hrmem
      exact ⟨rec, getLast_mem_foldl_putUpdate _ _ rec hrlast, hprops.1, hprops.2.1⟩

/-- The first-write branch of `storeUpdate`: a document with no update
records gets its initial state vector, derived from the stored update and
stamped with clock `0`, persisted alongside the update. -/
theorem storeUpdate_initial_sv (eng : YEngine) (db : DB) (d : String) (u : Bytes)
    (h : getCurrentUpdateClock db d = -1) :
    svLookup (storeUpdate eng db d u).1 d =
      some (encodeStateVector 0 (eng.deriveSummary u)) := by
  have hsvs : (storeUpdate eng db d u).1.svs =
      (writeStateVector db d (eng.deriveSummary u) 0).svs := by
    rw [storeUpdate]
    simp only [h, if_pos]
    split
    · rfl
    · rw [foldl_putUpdate_svs]
  rw [svLookup_congr d hsvs]
  exact svLookup_svPut_self db d (encodeStateVector 0 (eng.deriveSummary u))

/-- The serialized `appendUpdate` sequence returns consecutive clocks
starting right after the store's current clock. -/
theorem storeUpdateSeq_clocks (eng : YEngine) (d : String) :
    ∀ (us : List Bytes) (db : DB),
      getCurrentUpdateClock db d + us.length < (BITS32 : Int) →
      (storeUpdateSeq eng db d us).2 =
        (List.range us.length).map
          (fun k : Nat => getCurrentUpdateClock db d + 1 + (k : Int)) := by
  intro us
  induction us with
  | nil =>
    intro db _
    rfl
  | cons u us ih =>
    intro db hlt
    simp only [List.length_cons] at hlt
    have hlt1 : getCurrentUpdateClock db d + 1 < (BITS32 : Int) := by
      have : (0 : Int) ≤ (us.length : Int) := by positivity
      push_cast at hlt
      omega
    have hstep := getCurrentUpdateClock_storeUpdate eng db d u hlt1
    have htail := ih (storeUpdate eng db d u).1 (by
      rw [hstep]
      push_cast at hlt ⊢
      omega)
    simp only [storeUpdateSeq, List.length_cons]
    rw [htail, hstep, storeUpdate_snd, List.range_succ_eq_map, List.map_cons,
      List.map_map]
    congr 1
    · push_cast
      ring
    · apply List.map_congr_left
      intro a _
      simp only [Function.comp_apply]
      push_cast
      ring

/-- Claim C1: `storeUpdate(docName, bytes)` returns `currentClock + 1`;
successive `appendUpdate` calls on one document return strictly increasing
clocks starting at `0` with no gaps (from an empty document the `n` stored
updates get clocks `0, 1, ..., n-1`); and when no update record exists yet
(`currentClock == -1`) the call derives an initial state vector from the
update via the collaboration engine, persists it encoded with clock `0`,
and returns clock `0`. -/
theorem storeUpdate_clock_spec :
    (∀ (eng : YEngine) (db : DB) (d : String) (u : Bytes),
      (storeUpdate eng db d u).2 = getCurrentUpdateClock db d + 1) ∧
    (∀ (eng : YEngine) (db : DB) (d : String) (u : Bytes),
      getCurrentUpdateClock db d + 1 < (BITS32 : Int) →
      getCurrentUpdateClock (storeUpdate eng db d u).1 d =
        getCurrentUpdateClock db d + 1) ∧
    (∀ (eng : YEngine) (db : DB) (d : String) (us : List Bytes),
      getCurrentUpdateClock db d = -1 → (us.length : Int) ≤ (BITS32 : Int) →
      (storeUpdateSeq eng db d us).2 =
        (List.range us.length).map (fun k : Nat => (k : Int))) ∧
    (∀ (eng : YEngine) (db : DB) (d : String) (u : Bytes),
      getCurrentUpdateClock db d = -1 →
      svLookup (storeUpdate eng db d u).1 d =
          some (encodeStateVector 0 (eng.deriveSummary u)) ∧
        (storeUpdate eng db d u).2 = 0) := by
  refine ⟨fun eng db d u => storeUpdate_snd eng db d u,
    fun eng db d u h => getCurrentUpdateClock_storeUpdate eng db d u h,
    ?_, ?_⟩
  · intro eng db d us hempty hlen
    rw [storeUpdateSeq_clocks eng d us db (by rw [hempty]; omega)]
    apply List.map_congr_left
    intro a _
    rw [hempty]
    ring
  · intro eng db d u hempty
    refine ⟨storeUpdate_initial_sv eng db d u hempty, ?_⟩
    rw [storeUpdate_snd, hempty]
    ring

/-- A concrete collaboration engine for witnesses: the derived summary is a
fixed byte and merging concatenates, summarising by the concatenation. -/
def engTest : YEngine :=
  ⟨fun _ => [7], fun us => (us.flatten, us.flatten)⟩

/-- The empty store. -/
def dbEmpty : DB := ⟨[], []⟩

theorem storeUpdate_clock_spec_witness :
    (getCurrentUpdateClock dbEmpty "doc" + 1 < (BITS32 : Int) ∧
      getCurrentUpdateClock (storeUpdate engTest dbEmpty "doc" [1]).1 "doc" =
        getCurrentUpdateClock dbEmpty "doc" + 1) ∧
    (getCurrentUpdateClock dbEmpty "doc" = -1 ∧
      ((([[1], [2], [3]] : List Bytes)).length : Int) ≤ (BITS32 : Int) ∧
      (storeUpdateSeq engTest dbEmpty "doc" [[1], [2], [3]]).2 =
        (List.range ([[1], [2], [3]] : List Bytes).length).map (fun k : Nat => (k : Int))) ∧
    (svLookup (storeUpdate engTest dbEmpty "doc" [1]).1 "doc" =
        some (encodeStateVector 0 (engTest.deriveSummary [1])) ∧
      (storeUpdate engTest dbEmpty "doc" [1]).2 = 0) := by
  have h1 : getCurrentUpdateClock dbEmpty "doc" + 1 < (BITS32 : Int) := by
    norm_num [getCurrentUpdateClock, matchClocks, maxClockInt, dbEmpty, BITS32]
  have h2 : getCurrentUpdateClock dbEmpty "doc" = -1 := rfl
  have h3 : ((([[1], [2], [3]] : List Bytes)).length : Int) ≤ (BITS32 : Int) := by
    norm_num [BITS32]
  exact ⟨⟨h1, storeUpdate_clock_spec.2.1 engTest dbEmpty "doc" [1] h1⟩,
    ⟨h2, h3, storeUpdate_clock_spec.2.2.1 engTest dbEmpty "doc" [[1], [2], [3]] h2 h3⟩,
    storeUpdate_clock_spec.2.2.2 engTest dbEmpty "doc" [1] h2⟩

theorem writeStateVector_def (db : DB) (d : String) (sv : Bytes) (clock : Int) :
    writeStateVector db d sv clock = svPut db d (encodeStateVector clock sv) := rfl

/-- The heart of the Compactor: flushing a document whose update records
all carry clocks at most `m` — with one exactly at `m` — appends the
consolidated update at the fresh clock `m + 1`, stamps the state vector
with it, and leaves exactly that one update record for the document, all
other documents untouched. -/
theorem flushDocument_core (eng : YEngine) (db : DB) (d : String) (u sv : Bytes)
    (m : Nat)
    (hub : ∀ r ∈ db.updates, r.docName = d → (r.clock : Int) ≤ (m : Int))
    (hmem : ∃ r ∈ db.updates, r.docName = d ∧ r.clock = m)
    (hm1 : m + 1 < BITS32)
    (hlen : u.length ≤ MAX_DOCUMENT_SIZE) :
    (flushDocument eng db d u sv).2 = (m : Int) + 1 ∧
      (flushDocument eng db d u sv).1.updates.filter (fun r => r.docName == d) =
        [⟨d, m + 1, 0, u⟩] ∧
      svLookup (flushDocument eng db d u sv).1 d =
        some (encodeStateVector ((m : Int) + 1) sv) ∧
      (flushDocument eng db d u sv).1.updates.filter (fun r => !(r.docName == d)) =
        db.updates.filter (fun r => !(r.docName == d)) := by
  have hcur : getCurrentUpdateClock db d = (m : Int) :=
    getCurrentUpdateClock_eq (fun r hr hn _ => hub r hr hn) hmem (by omega)
  have hneg : ¬ (getCurrentUpdateClock db d = -1) := by
    rw [hcur]
    omega
  have htoNat : (getCurrentUpdateClock db d + 1).toNat = m + 1 := by
    rw [hcur]
    omega
  have hst1 : (storeUpdate eng db d u).1 = putUpdate db ⟨d, m + 1, 0, u⟩ := by
    simp only [storeUpdate]
    rw [if_neg hneg, if_pos hlen, htoNat]
  have hst2 : (storeUpdate eng db d u).2 = (m : Int) + 1 := by
    rw [storeUpdate_snd, hcur]
  have hflush1 : (flushDocument eng db d u sv).1 =
      clearUpdatesRange
        (writeStateVector (putUpdate db ⟨d, m + 1, 0, u⟩) d sv ((m : Int) + 1))
        d 0 ((m : Int) + 1) := by
    simp only [flushDocument]
    rw [hst1, hst2]
  have hflush2 : (flushDocument eng db d u sv).2 = (m : Int) + 1 := by
    simp only [flushDocument]
    rw [hst2]
  -- the update records after the flush, written out
  have hupd : (flushDocument eng db d u sv).1.updates =
      ((db.updates.filter (fun r => !sameUpdateKey r ⟨d, m + 1, 0, u⟩)) ++
          ([⟨d, m + 1, 0, u⟩] : List UpdateRecord)).filter
        (fun r => !(r.docName == d && decide ((0 : Int) ≤ (r.clock : Int)) &&
          decide ((r.clock : Int) < (m : Int) + 1))) := by
    rw [hflush1]
    rfl
  have hrec_kept : (fun r : UpdateRecord =>
      !(r.docName == d && decide ((0 : Int) ≤ (r.clock : Int)) &&
        decide ((r.clock : Int) < (m : Int) + 1))) ⟨d, m + 1, 0, u⟩ = true := by
    have hnotlt : ¬ (((m + 1 : Nat) : Int) < (m : Int) + 1) := by
      push_cast
      omega
    simp [hnotlt]
  refine ⟨hflush2, ?_, ?_, ?_⟩
  · rw [hupd, List.filter_append]
    have hleft : ((db.updates.filter
          (fun r => !sameUpdateKey r ⟨d, m + 1, 0, u⟩)).filter
        (fun r => !(r.docName == d && decide ((0 : Int) ≤ (r.clock : Int)) &&
          decide ((r.clock : Int) < (m : Int) + 1)))).filter
        (fun r => r.docName == d) = [] := by
      rw [List.filter_eq_nil_iff]
      intro r hr hname
      have hrdb : r ∈ db.updates :=
        List.mem_of_mem_filter (List.mem_of_mem_filter hr)
      have hkept := (List.mem_filter.mp hr).2
      have hd : r.docName = d := by simpa using hname
      have hle := hub r hrdb hd
      have hin : (r.docName == d && decide ((0 : Int) ≤ (r.clock : Int)) &&
          decide ((r.clock : Int) < (m : Int) + 1)) = true := by
        have h0 : (0 : Int) ≤ (r.clock : Int) := by positivity
        have hlt : (r.clock : Int) < (m : Int) + 1 := by omega
        simp [hd, h0, hlt]
      rw [hin] at hkept
      simp at hkept
    have hright : ([⟨d, m + 1, 0, u⟩] : List UpdateRecord).filter
        (fun r => !(r.docName == d && decide ((0 : Int) ≤ (r.clock : Int)) &&
          decide ((r.clock : Int) < (m : Int) + 1))) = [⟨d, m + 1, 0, u⟩] := by
      rw [List.filter_cons, if_pos hrec_kept]
      rfl
    rw [List.filter_append, hleft, hright, List.nil_append, List.filter_cons,
      if_pos (by simp)]
    rfl
  · have hsvs : (flushDocument eng db d u sv).1.svs =
        (writeStateVector (putUpdate db ⟨d, m + 1, 0, u⟩) d sv ((m : Int) + 1)).svs := by
      rw [hflush1]
      rfl
    rw [svLookup_congr d hsvs, writeStateVector_def]
    exact svLookup_svPut_self _ d _
  · rw [hupd, List.filter_append]
    have hright : ([⟨d, m + 1, 0, u⟩] : List UpdateRecord).filter
        (fun r => !(r.docName == d && decide ((0 : Int) ≤ (r.clock : Int)) &&
          decide ((r.clock : Int) < (m : Int) + 1))) = [⟨d, m + 1, 0, u⟩] := by
      rw [List.filter_cons, if_pos hrec_kept]
      rfl
    rw [hright, List.filter_append]
    have hrec_out : ([⟨d, m + 1, 0, u⟩] : List UpdateRecord).filter
        (fun r => !(r.docName == d)) = [] := by
      simp [List.filter_cons]
    rw [hrec_out, List.append_nil]
    simp only [List.filter_filter]
    apply List.filter_congr
    intro r _
    by_cases hd : r.docName = d
    · simp [sameUpdateKey, hd]
    · simp [sameUpdateKey, hd]

/-- Claim C2 (amended): when the consolidated update fits in a single
record, `flushDocument` appends it as a new record at `oldMaxClock + 1` (a
clock no existing record occupies), stamps the state-vector record with the
new clock, deletes exactly the document's update records with
`0 ≤ clock < newClock` (records of other documents are untouched), returns
`newClock`, and leaves exactly one update record — at `newClock` — for the
document. -/
theorem flushDocument_spec (eng : YEngine) (db : DB) (d : String) (u sv : Bytes)
    (m : Nat)
    (hub : ∀ r ∈ db.updates, r.docName = d → (r.clock : Int) ≤ (m : Int))
    (hmem : ∃ r ∈ db.updates, r.docName = d ∧ r.clock = m)
    (hm1 : m + 1 < BITS32)
    (hlen : u.length ≤ MAX_DOCUMENT_SIZE) :
    (flushDocument eng db d u sv).2 = (m : Int) + 1 ∧
      (∀ r ∈ db.updates, r.docName = d → r.clock ≠ m + 1) ∧
      (flushDocument eng db d u sv).1.updates.filter (fun r => r.docName == d) =
        [⟨d, m + 1, 0, u⟩] ∧
      svLookup (flushDocument eng db d u sv).1 d =
        some (encodeStateVector ((m : Int) + 1) sv) ∧
      (flushDocument eng db d u sv).1.updates.filter (fun r => !(r.docName == d)) =
        db.updates.filter (fun r => !(r.docName == d)) := by
  obtain ⟨h1, h2, h3, h4⟩ := flushDocument_core eng db d u sv m hub hmem hm1 hlen
  refine ⟨h1, ?_, h2, h3, h4⟩
  intro r hr hd
  have := hub r hr hd
  omega

/-- The spec's flush scenario: updates `A`, `B`, `C` stored for `"doc1"` at
clocks `0, 1, 2`. -/
def dbFlush : DB :=
  ⟨[⟨"doc1", 0, 0, [1]⟩, ⟨"doc1", 1, 0, [2]⟩, ⟨"doc1", 2, 0, [3]⟩], []⟩

theorem flushDocument_spec_witness :
    (∀ r ∈ dbFlush.updates, r.docName = "doc1" → (r.clock : Int) ≤ ((2 : Nat) : Int)) ∧
    (∃ r ∈ dbFlush.updates, r.docName = "doc1" ∧ r.clock = 2) ∧
    2 + 1 < BITS32 ∧
    ([9] : Bytes).length ≤ MAX_DOCUMENT_SIZE ∧
    ((flushDocument engTest dbFlush "doc1" [9] [8]).2 = ((2 : Nat) : Int) + 1 ∧
      (flushDocument engTest dbFlush "doc1" [9] [8]).1.updates.filter
          (fun r => r.docName == "doc1") = [⟨"doc1", 2 + 1, 0, [9]⟩]) := by
  have hub : ∀ r ∈ dbFlush.updates, r.docName = "doc1" →
      (r.clock : Int) ≤ ((2 : Nat) : Int) := by decide
  have hmem : ∃ r ∈ dbFlush.updates, r.docName = "doc1" ∧ r.clock = 2 := by decide
  have hm1 : 2 + 1 < BITS32 := by norm_num [BITS32]
  have hlen : ([9] : Bytes).length ≤ MAX_DOCUMENT_SIZE := by
    norm_num [MAX_DOCUMENT_SIZE]
  have happ := flushDocument_spec engTest dbFlush "doc1" [9] [8] 2 hub hmem hm1 hlen
  exact ⟨hub, hmem, hm1, hlen, happ.1, happ.2.2.1⟩

/-- An update one byte beyond the single-record limit. -/
def uBig : Bytes := List.replicate (MAX_DOCUMENT_SIZE + 1) 0

/-- A store holding a single small update for `"doc1"` at clock `0`. -/
def dbC2 : DB := ⟨[⟨"doc1", 0, 0, [1]⟩], []⟩

/-- The first chunk record of flushing `uBig` at clock `1`. -/
def chunkA : UpdateRecord :=
  ⟨"doc1", 1, 1, (uBig.drop (0 * MAX_DOCUMENT_SIZE)).take MAX_DOCUMENT_SIZE⟩

/-- The second chunk record of flushing `uBig` at clock `1`. -/
def chunkB : UpdateRecord :=
  ⟨"doc1", 1, 2, (uBig.drop (1 * MAX_DOCUMENT_SIZE)).take MAX_DOCUMENT_SIZE⟩

/-- Claim C2, counterexample: flushing a consolidated update larger than
`MAX_DOCUMENT_SIZE` (here one byte over, against a store holding one update
record at clock `0`) leaves TWO update records for the document — the two
chunk parts sharing clock `newClock = 1` — not exactly one record as the
claim states. -/
theorem flushDocument_oversize_counterexample :
    (flushDocument engTest dbC2 "doc1" uBig [5]).2 = 1 ∧
      ((flushDocument engTest dbC2 "doc1" uBig [5]).1.updates.filter
        (fun r => r.docName == "doc1")).length = 2 := by
  have hlenBig : uBig.length = MAX_DOCUMENT_SIZE + 1 := by
    simp [uBig]
  have hnlen : ¬ (uBig.length ≤ MAX_DOCUMENT_SIZE) := by
    rw [hlenBig]
    omega
  have hcur : getCurrentUpdateClock dbC2 "doc1" = 0 := by decide
  have htc : totalChunks uBig.length = 2 := by
    rw [hlenBig]
    decide
  have hsplit : splitChunks "doc1" 1 uBig = [chunkA, chunkB] := by
    rw [splitChunks, htc]
    rfl
  have hst1 : (storeUpdate engTest dbC2 "doc1" uBig).1 =
      (splitChunks "doc1" 1 uBig).foldl putUpdate dbC2 := by
    simp only [storeUpdate]
    rw [hcur, if_neg (by decide : ¬ ((0 : Int) = -1)), if_neg hnlen]
    norm_num
  have hst2 : (storeUpdate engTest dbC2 "doc1" uBig).2 = 1 := by
    rw [storeUpdate_snd, hcur]
    decide
  have hfold : (splitChunks "doc1" 1 uBig).foldl putUpdate dbC2 =
      ⟨[⟨"doc1", 0, 0, [1]⟩, chunkA, chunkB], []⟩ := by
    rw [hsplit]
    show putUpdate (putUpdate dbC2 chunkA) chunkB = _
    rw [putUpdate, putUpdate]
    simp [dbC2, sameUpdateKey, chunkA, chunkB]
  have hflush1 : (flushDocument engTest dbC2 "doc1" uBig [5]).1 =
      clearUpdatesRange
        (writeStateVector (⟨[⟨"doc1", 0, 0, [1]⟩, chunkA, chunkB], []⟩ : DB)
          "doc1" [5] 1)
        "doc1" 0 1 := by
    simp only [flushDocument]
    rw [hst1, hst2, hfold]
  have hflush2 : (flushDocument engTest dbC2 "doc1" uBig [5]).2 = 1 := by
    simp only [flushDocument]
    rw [hst2]
  refine ⟨hflush2, ?_⟩
  rw [hflush1]
  have hclear : (clearUpdatesRange
      (writeStateVector (⟨[⟨"doc1", 0, 0, [1]⟩, chunkA, chunkB], []⟩ : DB)
        "doc1" [5] 1)
      "doc1" 0 1).updates =
      ([⟨"doc1", 0, 0, [1]⟩, chunkA, chunkB] : List UpdateRecord).filter
        (fun r => !(r.docName == "doc1" && decide ((0 : Int) ≤ (r.clock : Int)) &&
          decide ((r.clock : Int) < 1))) := rfl
  rw [hclear]
  have hinner : ([⟨"doc1", 0, 0, [1]⟩, chunkA, chunkB] : List UpdateRecord).filter
      (fun r => !(r.docName == "doc1" && decide ((0 : Int) ≤ (r.clock : Int)) &&
        decide ((r.clock : Int) < 1))) = [chunkA, chunkB] := by
    rw [List.filter_cons, List.filter_cons, List.filter_cons]
    norm_num [chunkA, chunkB]
  rw [hinner, List.filter_cons, List.filter_cons]
  norm_num [chunkA, chunkB]

/-- Claim C8: the state-vector codec round-trips losslessly — decoding the
encoding of any non-negative clock (within JavaScript's exact-integer
range) with any summary byte array returns exactly the clock and the
summary. -/
theorem stateVectorCodec_roundtrip (clock : Nat) (sv : Bytes)
    (hclock : clock ≤ MAX_SAFE_INTEGER) (hsv : sv.length ≤ MAX_SAFE_INTEGER) :
    decodeMongodbStateVector (encodeStateVector (clock : Int) sv) =
      some (clock, sv) := by
  have h := decode_encodeStateVector clock sv [] hclock hsv
  simpa using h

theorem stateVectorCodec_roundtrip_witness :
    300 ≤ MAX_SAFE_INTEGER ∧ ([1, 2, 3] : Bytes).length ≤ MAX_SAFE_INTEGER ∧
      decodeMongodbStateVector (encodeStateVector ((300 : Nat) : Int) [1, 2, 3]) =
        some (300, [1, 2, 3]) := by
  have h1 : 300 ≤ MAX_SAFE_INTEGER := by norm_num [MAX_SAFE_INTEGER]
  have h2 : ([1, 2, 3] : Bytes).length ≤ MAX_SAFE_INTEGER := by
    norm_num [MAX_SAFE_INTEGER]
  exact ⟨h1, h2, stateVectorCodec_roundtrip 300 [1, 2, 3] h1 h2⟩

/-- Claim C10: the bulk-ingestion paths `storeUpdates` and `insertUpdates`
both return `0`, place every update (and every chunk part) at clock `0`,
and write each document's state-vector record encoded with the shared bulk
clock `-1` — which produces different bytes than encoding with `0` — all
without ever consulting the records already stored (the built write maps
are functions of the input map alone, and `DB` only receives them). -/
theorem bulkIngestion_spec :
    (∀ (eng : YEngine) (db : DB) (m : List (String × Bytes)),
      (storeUpdates eng db m).2 = 0 ∧ (insertUpdates eng db m).2 = 0) ∧
    (∀ (m : List (String × Bytes)) (e : String × UpdateRecord),
      e ∈ buildUpdateEntries m → e.2.clock = 0) ∧
    (∀ (eng : YEngine) (m : List (String × Bytes)) (du : String × Bytes),
      du ∈ m →
      (du.1, encodeStateVector (-1) (eng.deriveSummary du.2)) ∈
        buildStateVectorEntries eng m) ∧
    (∀ sv : Bytes, encodeStateVector (-1) sv ≠ encodeStateVector 0 sv) := by
  refine ⟨?_, ?_, ?_, ?_⟩
  · intro eng db m
    exact ⟨rfl, rfl⟩
  · intro m e he
    rcases List.mem_flatMap.mp he with ⟨du, _, hmem⟩
    by_cases hlen : du.2.length ≤ MAX_DOCUMENT_SIZE
    · rw [if_pos hlen] at hmem
      rcases List.mem_singleton.mp hmem with rfl
      rfl
    · rw [if_neg hlen] at hmem
      rcases List.mem_map.mp hmem with ⟨i, _, rfl⟩
      rfl
  · intro eng m du hdu
    exact List.mem_map.mpr ⟨du, hdu, rfl⟩
  · intro sv h
    have h1 : writeVarUint (-1) = [127] := by decide
    have h2 : writeVarUint 0 = [0] := by decide
    rw [encodeStateVector, encodeStateVector, h1, h2] at h
    simp at h

theorem bulkIngestion_spec_witness :
    (("doc", (⟨"doc", 0, 0, [1]⟩ : UpdateRecord)) ∈
        buildUpdateEntries [("doc", [1])] ∧
      ((⟨"doc", 0, 0, [1]⟩ : UpdateRecord)).clock = 0) ∧
    (("doc", ([1] : Bytes)) ∈ ([("doc", [1])] : List (String × Bytes)) ∧
      ("doc", encodeStateVector (-1) (engTest.deriveSummary [1])) ∈
        buildStateVectorEntries engTest [("doc", [1])]) := by
  have hm : ("doc", (⟨"doc", 0, 0, [1]⟩ : UpdateRecord)) ∈
      buildUpdateEntries [("doc", [1])] := by
    unfold buildUpdateEntries
    rw [List.flatMap_cons]
    norm_num [MAX_DOCUMENT_SIZE, bulkStartClock]
  have hd : ("doc", ([1] : Bytes)) ∈ ([("doc", [1])] : List (String × Bytes)) :=
    List.mem_singleton.mpr rfl
  exact ⟨⟨hm, bulkIngestion_spec.2.1 [("doc", [1])] _ hm⟩,
    ⟨hd, bulkIngestion_spec.2.2.1 engTest [("doc", [1])] ("doc", [1]) hd⟩⟩

/-! ### The retry loop, unfolded one attempt at a time -/

theorem retryGo_ok {α : Type} (task : Nat → Except MongoError α)
    (d rem att : Nat) (last : Option MongoError) (delays : List Nat) (a : α)
    (h : task att = .ok a) :
    retryGo task d (rem + 1) att last delays = (.ok a, delays) := by
  simp only [retryGo, h]

theorem retryGo_fatal {α : Type} (task : Nat → Except MongoError α)
    (d rem att : Nat) (last : Option MongoError) (delays : List Nat)
    (e : MongoError) (h : task att = .error e)
    (ht : isRetriableMongoError e = false) :
    retryGo task d (rem + 1) att last delays = (.error (some e), delays) := by
  simp only [retryGo, h, ht]
  rfl

theorem retryGo_retry {α : Type} (task : Nat → Except MongoError α)
    (d rem att : Nat) (last : Option MongoError) (delays : List Nat)
    (e : MongoError) (h : task att = .error e)
    (ht : isRetriableMongoError e = true) (hrem : rem ≠ 0) :
    retryGo task d (rem + 1) att last delays =
      retryGo task d rem (att + 1) (some e) (delays ++ [d]) := by
  simp only [retryGo, h, ht, if_true, if_neg hrem]

theorem retryGo_exhausted {α : Type} (task : Nat → Except MongoError α)
    (d att : Nat) (last : Option MongoError) (delays : List Nat)
    (e : MongoError) (h : task att = .error e)
    (ht : isRetriableMongoError e = true) :
    retryGo task d (0 + 1) att last delays = (.error (some e), delays) := by
  simp only [retryGo, h, ht]
  rfl

/-- Claim C7: under the bulk-write retry wrapper as called by the source
(3 attempts, 1000ms fixed delay), a task failing only with transient errors
(network error, network timeout, bulk-write error) is run three times with
a 1000ms sleep between consecutive attempts, and the LAST transient error
is surfaced; a task that recovers is retried and its success returned; any
non-transient error propagates immediately — on attempt one with no retry
and no sleep, or mid-sequence aborting the remaining attempts. -/
theorem retryMongoOperation_spec :
    (∀ (α : Type) (task : Nat → Except MongoError α) (e : MongoError),
      task 1 = .error e → isRetriableMongoError e = false →
      retryMongoOperation task 3 1000 = (.error (some e), [])) ∧
    (∀ (α : Type) (task : Nat → Except MongoError α) (e1 e2 e3 : MongoError),
      task 1 = .error e1 → task 2 = .error e2 → task 3 = .error e3 →
      isRetriableMongoError e1 = true → isRetriableMongoError e2 = true →
      isRetriableMongoError e3 = true →
      retryMongoOperation task 3 1000 = (.error (some e3), [1000, 1000])) ∧
    (∀ (α : Type) (task : Nat → Except MongoError α) (e1 : MongoError) (a : α),
      task 1 = .error e1 → isRetriableMongoError e1 = true → task 2 = .ok a →
      retryMongoOperation task 3 1000 = (.ok a, [1000])) ∧
    (∀ (α : Type) (task : Nat → Except MongoError α) (e1 e2 : MongoError),
      task 1 = .error e1 → isRetriableMongoError e1 = true →
      task 2 = .error e2 → isRetriableMongoError e2 = false →
      retryMongoOperation task 3 1000 = (.error (some e2), [1000])) := by
  refine ⟨?_, ?_, ?_, ?_⟩
  · intro α task e h1 ht
    rw [retryMongoOperation, show (3 : Nat) = 2 + 1 from rfl,
      retryGo_fatal task 1000 2 1 none [] e h1 ht]
  · intro α task e1 e2 e3 h1 h2 h3 ht1 ht2 ht3
    rw [retryMongoOperation, show (3 : Nat) = 2 + 1 from rfl,
      retryGo_retry task 1000 2 1 none [] e1 h1 ht1 (by omega),
      show (2 : Nat) = 1 + 1 from rfl,
      retryGo_retry task 1000 1 2 (some e1) ([] ++ [1000]) e2 h2 ht2 (by omega),
      retryGo_exhausted task 1000 3 (some e2) (([] ++ [1000]) ++ [1000]) e3 h3 ht3]
    simp
  · intro α task e1 a h1 ht1 h2
    rw [retryMongoOperation, show (3 : Nat) = 2 + 1 from rfl,
      retryGo_retry task 1000 2 1 none [] e1 h1 ht1 (by omega),
      show (2 : Nat) = 1 + 1 from rfl,
      retryGo_ok task 1000 1 2 (some e1) ([] ++ [1000]) a h2]
    simp
  · intro α task e1 e2 h1 ht1 h2 ht2
    rw [retryMongoOperation, show (3 : Nat) = 2 + 1 from rfl,
      retryGo_retry task 1000 2 1 none [] e1 h1 ht1 (by omega),
      show (2 : Nat) = 1 + 1 from rfl,
      retryGo_fatal task 1000 1 2 (some e1) ([] ++ [1000]) e2 h2 ht2]
    simp

/-- A task failing with a network timeout on every attempt. -/
def taskTimeout : Nat → Except MongoError Nat :=
  fun _ => .error .networkTimeoutError

/-- A task hitting a network error once, then succeeding. -/
def taskRecover : Nat → Except MongoError Nat :=
  fun att => if att = 1 then .error .networkError else .ok 42

theorem retryMongoOperation_spec_witness :
    (taskTimeout 1 = .error .networkTimeoutError ∧
      taskTimeout 2 = .error .networkTimeoutError ∧
      taskTimeout 3 = .error .networkTimeoutError ∧
      isRetriableMongoError .networkTimeoutError = true ∧
      retryMongoOperation taskTimeout 3 1000 =
        (.error (some .networkTimeoutError), [1000, 1000])) ∧
    (taskRecover 1 = .error .networkError ∧
      isRetriableMongoError .networkError = true ∧ taskRecover 2 = .ok 42 ∧
      retryMongoOperation taskRecover 3 1000 = (.ok 42, [1000])) := by
  refine ⟨⟨rfl, rfl, rfl, rfl, ?_⟩, ⟨rfl, rfl, rfl, ?_⟩⟩
  · exact retryMongoOperation_spec.2.1 Nat taskTimeout _ _ _ rfl rfl rfl rfl rfl rfl
  · exact retryMongoOperation_spec.2.2.1 Nat taskRecover _ 42 rfl rfl rfl

/-! ### The transaction serializer's error swallowing (claim C6) -/

/-- Claim C6, counterexample: an operation body that fails with `"boom"`
reaches its caller as a FULFILLED promise carrying `null` — the
caller-visible outcome is `Except.ok none`, not the error, so the failure
is not reported to the operation's caller. -/
theorem transactOutcome_counterexample :
    (transactOutcome (Except.error "boom" : Except String Nat)).1 =
      Except.ok none ∧
    (transactOutcome (Except.error "boom" : Except String Nat)).1 ≠
      Except.error "boom" := by
  constructor
  · rfl
  · intro h
    simp [transactOutcome] at h

/-- Claim C6 (amended): a failing operation inside the per-document chain
never rejects the caller's promise — the caller receives a fulfilled `null`
result instead of the error; the error is recorded (via the
`console.warn` log); and the chain still proceeds: every queued operation
body settles with its own caller-visible outcome, in submission order. -/
theorem transact_spec :
    (∀ (ε α : Type) (b : Except ε α) (e : ε),
      (transactOutcome b).1 ≠ Except.error e) ∧
    (∀ (ε α : Type) (e : ε),
      transactOutcome (Except.error e : Except ε α) = (Except.ok none, [e])) ∧
    (∀ (ε α : Type) (a : α),
      transactOutcome (Except.ok a : Except ε α) = (Except.ok (some a), [])) ∧
    (∀ (ε α : Type) (bodies : List (Except ε α)),
      (transactChain bodies).1.length = bodies.length) ∧
    (∀ (ε α : Type) (b : Except ε α) (bs : List (Except ε α)),
      transactChain (b :: bs) =
        ((transactOutcome b).1 :: (transactChain bs).1,
          (transactOutcome b).2 ++ (transactChain bs).2)) := by
  refine ⟨?_, ?_, ?_, ?_, ?_⟩
  · intro ε α b e
    cases b <;> simp [transactOutcome]
  · intro ε α e
    rfl
  · intro ε α a
    rfl
  · intro ε α bodies
    induction bodies with
    | nil => rfl
    | cons b bs ih =>
      simp only [transactChain, List.length_cons, ih]
  · intro ε α b bs
    rfl

/-! ### Claim C4: when the chunk merge detects corruption — and when not -/

/-- Claim C4, counterexample: a lone continuation record (`part = 2`, no
`part = 1` opener) is NOT a `(clock, part)` sequence of the contiguous form
`1, 2, ...`, yet the merge silently skips it and succeeds with no logical
updates — it does not fail with the corrupt-chunk error. -/
theorem convertMongoUpdates_skip_counterexample :
    convertMongoUpdates [⟨"doc", 0, 2, [1]⟩] = .ok [] := by
  rw [convertMongoUpdates]
  norm_num
  rw [convertMongoUpdates]

/-- Claim C4 (amended): only a contiguity break INSIDE an opened multi-part
group is detected: once a `part == 1` record opens a group, a following
record that is flagged and shares the clock but does not carry the next
consecutive part number makes the merge fail with the corrupt-chunk error
(first conjunct for the general gather step, second at the top of a group);
but a flagged record that no open group absorbs — e.g. a continuation with
no opener — is silently skipped rather than rejected (third conjunct), so
a missing `part = 1` yields a silent partial result, not an error. -/
theorem convertMongoUpdates_corrupt_spec :
    (∀ (c pid : Nat) (r : UpdateRecord) (rest : List UpdateRecord),
      r.part ≠ 0 → r.clock = c → pid ≠ r.part - 1 →
      gatherParts c pid (r :: rest) = .error partMissingMsg) ∧
    (∀ (d : String) (c : Nat) (v : Bytes) (r : UpdateRecord)
        (rest : List UpdateRecord),
      r.part ≠ 0 → r.clock = c → r.part ≠ 2 →
      convertMongoUpdates (⟨d, c, 1, v⟩ :: r :: rest) = .error partMissingMsg) ∧
    (∀ (r : UpdateRecord) (docs : List UpdateRecord),
      r.part ≠ 0 → r.part ≠ 1 →
      convertMongoUpdates (r :: docs) = convertMongoUpdates docs) := by
  have hgather : ∀ (c pid : Nat) (r : UpdateRecord) (rest : List UpdateRecord),
      r.part ≠ 0 → r.clock = c → pid ≠ r.part - 1 →
      gatherParts c pid (r :: rest) = .error partMissingMsg := by
    intro c pid r rest hp hc hpid
    rw [gatherParts, if_pos ⟨hp, hc⟩, if_pos hpid]
  refine ⟨hgather, ?_, ?_⟩
  · intro d c v r rest hp hc hp2
    rw [convertMongoUpdates]
    rw [hgather c 1 r rest hp hc (by omega)]
    norm_num
  · intro r docs hp hp1
    rw [convertMongoUpdates]
    rw [if_neg hp, if_neg hp1]

theorem convertMongoUpdates_corrupt_spec_witness :
    ((⟨"doc", 0, 3, [2]⟩ : UpdateRecord).part ≠ 0 ∧
      (⟨"doc", 0, 3, [2]⟩ : UpdateRecord).clock = 0 ∧
      (⟨"doc", 0, 3, [2]⟩ : UpdateRecord).part ≠ 2 ∧
      convertMongoUpdates [⟨"doc", 0, 1, [1]⟩, ⟨"doc", 0, 3, [2]⟩] =
        .error partMissingMsg) ∧
    ((⟨"doc", 1, 5, [4]⟩ : UpdateRecord).part ≠ 0 ∧
      (⟨"doc", 1, 5, [4]⟩ : UpdateRecord).part ≠ 1 ∧
      convertMongoUpdates [⟨"doc", 1, 5, [4]⟩, ⟨"doc", 2, 0, [6]⟩] =
        convertMongoUpdates [⟨"doc", 2, 0, [6]⟩]) := by
  refine ⟨⟨by norm_num, rfl, by norm_num, ?_⟩, ⟨by norm_num, by norm_num, ?_⟩⟩
  · exact convertMongoUpdates_corrupt_spec.2.1 "doc" 0 [1] ⟨"doc", 0, 3, [2]⟩ []
      (by norm_num) rfl (by norm_num)
  · exact convertMongoUpdates_corrupt_spec.2.2 ⟨"doc", 1, 5, [4]⟩
      [⟨"doc", 2, 0, [6]⟩] (by norm_num) (by norm_num)

/-! ### Claim C5: the chunk codec round-trips oversized payloads -/

/-- The chunk records of a payload written as the recursion "take a chunk,
number it, recurse on the rest" — the proof-friendly view of
`splitChunks`. -/
def chunkRecsFrom (d : String) (c : Nat) : Nat → Bytes → List UpdateRecord
  | _, [] => []
  | p, x :: t =>
    ⟨d, c, p, (x :: t).take MAX_DOCUMENT_SIZE⟩ ::
      chunkRecsFrom d c (p + 1) ((x :: t).drop MAX_DOCUMENT_SIZE)
termination_by _ l => l.length
decreasing_by
  simp only [List.length_drop, List.length_cons, MAX_DOCUMENT_SIZE]
  omega

theorem chunkRecsFrom_nil (d : String) (c p : Nat) :
    chunkRecsFrom d c p [] = [] := by
  rw [chunkRecsFrom]

theorem chunkRecsFrom_cons (d : String) (c p : Nat) (l : Bytes) (h : l ≠ []) :
    chunkRecsFrom d c p l =
      ⟨d, c, p, l.take MAX_DOCUMENT_SIZE⟩ ::
        chunkRecsFrom d c (p + 1) (l.drop MAX_DOCUMENT_SIZE) := by
  cases l with
  | nil => exact absurd rfl h
  | cons x t => rw [chunkRecsFrom]

theorem totalChunks_zero : totalChunks 0 = 0 := by decide

theorem totalChunks_succ {n : Nat} (h : 1 ≤ n) :
    totalChunks n = totalChunks (n - MAX_DOCUMENT_SIZE) + 1 := by
  unfold totalChunks MAX_DOCUMENT_SIZE
  omega

/-- The index-based chunk map of `storeUpdate` computes the recursive chunk
list, for any starting part offset. -/
theorem chunk_map_general (d : String) (c : Nat) : ∀ (n : Nat) (l : Bytes),
    l.length = n → ∀ p : Nat,
    (List.range (totalChunks l.length)).map
        (fun i => (⟨d, c, p + i + 1,
          (l.drop (i * MAX_DOCUMENT_SIZE)).take MAX_DOCUMENT_SIZE⟩ : UpdateRecord)) =
      chunkRecsFrom d c (p + 1) l := by
  intro n
  induction n using Nat.strong_induction_on with
  | _ n ih =>
    intro l hl p
    by_cases hnil : l = []
    · subst hnil
      simp only [List.length_nil, totalChunks_zero, List.range_zero, List.map_nil,
        chunkRecsFrom_nil]
    · have hlen1 : 1 ≤ l.length := by
        cases l with
        | nil => exact absurd rfl hnil
        | cons x t => simp
      subst hl
      rw [totalChunks_succ hlen1, List.range_succ_eq_map, List.map_cons,
        List.map_map, chunkRecsFrom_cons d c (p + 1) l hnil]
      apply congr_arg₂ List.cons
      · simp only [Nat.zero_mul, List.drop_zero, Nat.add_zero]
      · have hlt : (l.drop MAX_DOCUMENT_SIZE).length < l.length := by
          rw [List.length_drop]
          have h0 : 0 < MAX_DOCUMENT_SIZE := by norm_num [MAX_DOCUMENT_SIZE]
          omega
        have htail := ih (l.drop MAX_DOCUMENT_SIZE).length hlt
          (l.drop MAX_DOCUMENT_SIZE) rfl (p + 1)
        rw [List.length_drop] at htail
        rw [← htail]
        apply List.map_congr_left
        intro i _
        simp only [Function.comp_apply]
        have hidx : (i + 1) * MAX_DOCUMENT_SIZE =
            i * MAX_DOCUMENT_SIZE + MAX_DOCUMENT_SIZE := by ring
        have hdd : (l.drop MAX_DOCUMENT_SIZE).drop (i * MAX_DOCUMENT_SIZE) =
            l.drop ((i + 1) * MAX_DOCUMENT_SIZE) := by
          rw [List.drop_drop, hidx]
          ring_nf
        simp only [UpdateRecord.mk.injEq, hdd, and_true, true_and]
        omega

/-- `splitChunks` is the recursive chunk list starting at part `1`. -/
theorem splitChunks_eq_chunkRecsFrom (d : String) (c : Nat) (u : Bytes) :
    splitChunks d c u = chunkRecsFrom d c 1 u := by
  have h := chunk_map_general d c u.length u rfl 0
  rw [splitChunks]
  rw [← h]
  apply List.map_congr_left
  intro i _
  simp

/-- The inner gather loop consumes a whole trailing chunk group, returning
its values and its length. -/
theorem gatherParts_chunkRecsFrom (d : String) (c : Nat) : ∀ (n : Nat) (l : Bytes),
    l.length = n → ∀ p : Nat,
    gatherParts c p (chunkRecsFrom d c (p + 1) l) =
      .ok ((chunkRecsFrom d c (p + 1) l).map (fun r => r.value),
        (chunkRecsFrom d c (p + 1) l).length) := by
  intro n
  induction n using Nat.strong_induction_on with
  | _ n ih =>
    intro l hl p
    by_cases hnil : l = []
    · subst hnil
      rw [chunkRecsFrom_nil]
      rfl
    · rw [chunkRecsFrom_cons d c (p + 1) l hnil]
      have hcond : ((⟨d, c, p + 1, l.take MAX_DOCUMENT_SIZE⟩ : UpdateRecord).part ≠ 0 ∧
          (⟨d, c, p + 1, l.take MAX_DOCUMENT_SIZE⟩ : UpdateRecord).clock = c) := by
        constructor
        · show p + 1 ≠ 0
          omega
        · rfl
      have hnobreak : ¬ (p ≠
          (⟨d, c, p + 1, l.take MAX_DOCUMENT_SIZE⟩ : UpdateRecord).part - 1) := by
        show ¬ (p ≠ (p + 1) - 1)
        omega
      rw [gatherParts, if_pos hcond, if_neg hnobreak]
      have hdl : (l.drop MAX_DOCUMENT_SIZE).length = n - MAX_DOCUMENT_SIZE := by
        rw [List.length_drop, hl]
      have hlen1 : 1 ≤ l.length := by
        cases l with
        | nil => exact absurd rfl hnil
        | cons x t => simp
      have hlt : n - MAX_DOCUMENT_SIZE < n := by
        have h0 : 0 < MAX_DOCUMENT_SIZE := by norm_num [MAX_DOCUMENT_SIZE]
        omega
      have htail := ih (n - MAX_DOCUMENT_SIZE) hlt (l.drop MAX_DOCUMENT_SIZE)
        hdl (p + 1)
      rw [htail]
      simp

/-- Concatenating the chunk values restores the payload. -/
theorem chunkRecsFrom_values_flatten (d : String) (c : Nat) : ∀ (n : Nat) (l : Bytes),
    l.length = n → ∀ p : Nat,
    ((chunkRecsFrom d c p l).map (fun r => r.value)).flatten = l := by
  intro n
  induction n using Nat.strong_induction_on with
  | _ n ih =>
    intro l hl p
    by_cases hnil : l = []
    · subst hnil
      rw [chunkRecsFrom_nil]
      rfl
    · rw [chunkRecsFrom_cons d c p l hnil, List.map_cons, List.flatten_cons]
      have hdl : (l.drop MAX_DOCUMENT_SIZE).length = n - MAX_DOCUMENT_SIZE := by
        rw [List.length_drop, hl]
      have hlen1 : 1 ≤ l.length := by
        cases l with
        | nil => exact absurd rfl hnil
        | cons x t => simp
      have hlt : n - MAX_DOCUMENT_SIZE < n := by
        have h0 : 0 < MAX_DOCUMENT_SIZE := by norm_num [MAX_DOCUMENT_SIZE]
        omega
      have htail := ih (n - MAX_DOCUMENT_SIZE) hlt (l.drop MAX_DOCUMENT_SIZE)
        hdl (p + 1)
      show l.take MAX_DOCUMENT_SIZE ++
        ((chunkRecsFrom d c (p + 1) (l.drop MAX_DOCUMENT_SIZE)).map
          (fun r => r.value)).flatten = l
      rw [htail]
      exact List.take_append_drop MAX_DOCUMENT_SIZE l

/-- Unfolding `convertMongoUpdates` on an unflagged head record. -/
theorem convertMongoUpdates_cons_plain (hr : UpdateRecord)
    (rest : List UpdateRecord) (hpart : hr.part = 0) (us : List Bytes)
    (hc : convertMongoUpdates rest = .ok us) :
    convertMongoUpdates (hr :: rest) = .ok (hr.value :: us) := by
  rw [convertMongoUpdates, if_pos hpart]
  simp only [hc]

/-- Unfolding `convertMongoUpdates` on a `part == 1` head whose group the
gather loop consumes successfully. -/
theorem convertMongoUpdates_cons_group (hr : UpdateRecord)
    (rest : List UpdateRecord) (hpart : hr.part = 1) (ps : List Bytes) (k : Nat)
    (hg : gatherParts hr.clock 1 rest = .ok (ps, k)) (us : List Bytes)
    (hc : convertMongoUpdates (rest.drop k) = .ok us) :
    convertMongoUpdates (hr :: rest) = .ok ((hr.value :: ps).flatten :: us) := by
  rw [convertMongoUpdates, if_neg (by rw [hpart]; omega), if_pos hpart]
  simp only [hg, hc]

/-- Claim C5: splitting a payload strictly larger than the single-record
limit into parts numbered from `1` — every part at most the limit, all
sharing one clock — and merging those records in order reproduces the
payload byte for byte: `merge (split bytes) = [bytes]`. -/
theorem chunkRoundtrip_spec (d : String) (c : Nat) (u : Bytes)
    (h : MAX_DOCUMENT_SIZE < u.length) :
    (∀ r ∈ splitChunks d c u,
      r.docName = d ∧ r.clock = c ∧ 1 ≤ r.part ∧
        r.value.length ≤ MAX_DOCUMENT_SIZE) ∧
    convertMongoUpdates (splitChunks d c u) = .ok [u] := by
  have hnil : u ≠ [] := by
    intro hc
    rw [hc] at h
    simp at h
  constructor
  · intro r hr
    have hp := mem_splitChunks hr
    refine ⟨hp.1, hp.2.1, hp.2.2, ?_⟩
    obtain ⟨i, _, rfl⟩ := List.mem_map.mp hr
    show ((u.drop (i * MAX_DOCUMENT_SIZE)).take MAX_DOCUMENT_SIZE).length ≤
      MAX_DOCUMENT_SIZE
    rw [List.length_take]
    omega
  · rw [splitChunks_eq_chunkRecsFrom, chunkRecsFrom_cons d c 1 u hnil]
    have hg := gatherParts_chunkRecsFrom d c (u.drop MAX_DOCUMENT_SIZE).length
      (u.drop MAX_DOCUMENT_SIZE) rfl 1
    have hempty : convertMongoUpdates
        ((chunkRecsFrom d c (1 + 1) (u.drop MAX_DOCUMENT_SIZE)).drop
          (chunkRecsFrom d c (1 + 1) (u.drop MAX_DOCUMENT_SIZE)).length) =
        .ok [] := by
      rw [List.drop_length, convertMongoUpdates]
    have hconv := convertMongoUpdates_cons_group
      ⟨d, c, 1, u.take MAX_DOCUMENT_SIZE⟩
      (chunkRecsFrom d c (1 + 1) (u.drop MAX_DOCUMENT_SIZE)) rfl
      ((chunkRecsFrom d c (1 + 1) (u.drop MAX_DOCUMENT_SIZE)).map
        (fun r => r.value))
      (chunkRecsFrom d c (1 + 1) (u.drop MAX_DOCUMENT_SIZE)).length
      hg [] hempty
    rw [hconv]
    show Except.ok ((u.take MAX_DOCUMENT_SIZE ::
      (chunkRecsFrom d c (1 + 1) (u.drop MAX_DOCUMENT_SIZE)).map
        (fun r => r.value)).flatten :: ([] : List Bytes)) = Except.ok [u]
    rw [List.flatten_cons,
      chunkRecsFrom_values_flatten d c (u.drop MAX_DOCUMENT_SIZE).length
        (u.drop MAX_DOCUMENT_SIZE) rfl (1 + 1),
      List.take_append_drop]

theorem chunkRoundtrip_spec_witness :
    MAX_DOCUMENT_SIZE < uBig.length ∧
      convertMongoUpdates (splitChunks "doc" 5 uBig) = .ok [uBig] := by
  have h : MAX_DOCUMENT_SIZE < uBig.length := by
    rw [show uBig.length = MAX_DOCUMENT_SIZE + 1 from by simp [uBig]]
    omega
  exact ⟨h, (chunkRoundtrip_spec "doc" 5 uBig h).2⟩
/-! ### Claim C3: the state-vector read path -/

/-- Claim C3: `getStateVector` returns the cached state vector exactly when
a cached record exists (and decodes) with a stored clock equal to the
Update Log's current clock; with no cached record, or with a stale clock,
it runs the full merge-and-flush path, which flushes the merged history and
returns the freshly computed state vector. -/
theorem getStateVector_spec :
    (∀ (eng : YEngine) (db : DB) (d : String) (v s : Bytes) (c : Nat),
      svLookup db d = some v → decodeMongodbStateVector v = some (c, s) →
      (c : Int) = getCurrentUpdateClock db d →
      pGetStateVector eng db d = .ok (db, s)) ∧
    (∀ (eng : YEngine) (db : DB) (d : String),
      svLookup db d = none →
      pGetStateVector eng db d = getStateVectorFlushPath eng db d) ∧
    (∀ (eng : YEngine) (db : DB) (d : String) (v s : Bytes) (c : Nat),
      svLookup db d = some v → decodeMongodbStateVector v = some (c, s) →
      (c : Int) ≠ getCurrentUpdateClock db d →
      pGetStateVector eng db d = getStateVectorFlushPath eng db d) ∧
    (∀ (eng : YEngine) (db : DB) (d : String) (us : List Bytes),
      getMongoUpdates db d = .ok us →
      getStateVectorFlushPath eng db d =
        .ok ((flushDocument eng db d (eng.merge us).1 (eng.merge us).2).1,
          (eng.merge us).2)) := by
  refine ⟨?_, ?_, ?_, ?_⟩
  · intro eng db d v s c hsv hdec hc
    have hrs : readStateVector db d = .ok (some s, (c : Int)) := by
      simp only [readStateVector, hsv, hdec]
    simp only [pGetStateVector, hrs]
    rw [if_pos hc]
  · intro eng db d hsv
    have hrs : readStateVector db d = .ok (none, -1) := by
      simp only [readStateVector, hsv]
    simp only [pGetStateVector, hrs]
  · intro eng db d v s c hsv hdec hc
    have hrs : readStateVector db d = .ok (some s, (c : Int)) := by
      simp only [readStateVector, hsv, hdec]
    simp only [pGetStateVector, hrs]
    rw [if_neg hc]
  · intro eng db d us hus
    simp only [getStateVectorFlushPath, hus]
    rfl

/-- A store whose cached state vector is fresh: one update record at
clock `0` and a state-vector record encoded with clock `0`. -/
def dbHit : DB := ⟨[⟨"doc", 0, 0, [1]⟩], [("doc", encodeStateVector 0 [3])]⟩

theorem getStateVector_spec_witness :
    svLookup dbHit "doc" = some (encodeStateVector 0 [3]) ∧
    decodeMongodbStateVector (encodeStateVector 0 [3]) = some (0, [3]) ∧
    ((0 : Nat) : Int) = getCurrentUpdateClock dbHit "doc" ∧
    pGetStateVector engTest dbHit "doc" = .ok (dbHit, [3]) := by
  have hsv : svLookup dbHit "doc" = some (encodeStateVector 0 [3]) := by decide
  have hdec : decodeMongodbStateVector (encodeStateVector 0 [3]) =
      some (0, [3]) := by decide
  have hc : ((0 : Nat) : Int) = getCurrentUpdateClock dbHit "doc" := by decide
  exact ⟨hsv, hdec, hc,
    getStateVector_spec.1 engTest dbHit "doc" (encodeStateVector 0 [3]) [3] 0
      hsv hdec hc⟩

/-! ### Claim C9: compaction idempotence -/

/-- Claim C9: with no intervening updates, two successive `flushDocument`
calls on a document write the SAME summary bytes (stamped with clocks
`m + 1` and then `m + 2`), and after each flush the document's update log
is non-empty — the consolidated record remains. The collaboration engine is
opaque, so the proof assumes engine coherence: merging the consolidated
update alone re-derives the summary of the full history
(`merge [merge(us).update] .sv = merge(us).sv`), which yjs satisfies. -/
theorem flushDocument_idempotent (eng : YEngine) (db : DB) (d : String) (m : Nat)
    (us : List Bytes)
    (hus : getMongoUpdates db d = .ok us)
    (hub : ∀ r ∈ db.updates, r.docName = d → (r.clock : Int) ≤ (m : Int))
    (hmem : ∃ r ∈ db.updates, r.docName = d ∧ r.clock = m)
    (hm : m + 2 < BITS32)
    (hlen1 : (eng.merge us).1.length ≤ MAX_DOCUMENT_SIZE)
    (hlen2 : (eng.merge [(eng.merge us).1]).1.length ≤ MAX_DOCUMENT_SIZE)
    (hcoh : (eng.merge [(eng.merge us).1]).2 = (eng.merge us).2) :
    ∃ db1 db2 : DB,
      pFlushDocument eng db d = .ok db1 ∧
      pFlushDocument eng db1 d = .ok db2 ∧
      svLookup db1 d = some (encodeStateVector ((m : Int) + 1) (eng.merge us).2) ∧
      svLookup db2 d = some (encodeStateVector ((m : Int) + 2) (eng.merge us).2) ∧
      db1.updates.filter (fun r => r.docName == d) ≠ [] ∧
      db2.updates.filter (fun r => r.docName == d) ≠ [] := by
  obtain ⟨hclk1, hfilter1, hsv1, _⟩ := flushDocument_core eng db d
    (eng.merge us).1 (eng.merge us).2 m hub hmem (by omega) hlen1
  refine ⟨(flushDocument eng db d (eng.merge us).1 (eng.merge us).2).1, ?_⟩
  have hp1 : pFlushDocument eng db d =
      .ok (flushDocument eng db d (eng.merge us).1 (eng.merge us).2).1 := by
    simp only [pFlushDocument, hus]
    rfl
  -- the single surviving record after the first flush
  have hrec1mem : (⟨d, m + 1, 0, (eng.merge us).1⟩ : UpdateRecord) ∈
      (flushDocument eng db d (eng.merge us).1 (eng.merge us).2).1.updates := by
    have hin : (⟨d, m + 1, 0, (eng.merge us).1⟩ : UpdateRecord) ∈
        (flushDocument eng db d (eng.merge us).1
          (eng.merge us).2).1.updates.filter (fun r => r.docName == d) := by
      rw [hfilter1]
      exact List.mem_singleton.mpr rfl
    exact List.mem_of_mem_filter hin
  have hub2 : ∀ r ∈ (flushDocument eng db d (eng.merge us).1 (eng.merge us).2).1.updates,
      r.docName = d → (r.clock : Int) ≤ ((m + 1 : Nat) : Int) := by
    intro r hr hd
    have hrf : r ∈ (flushDocument eng db d (eng.merge us).1
        (eng.merge us).2).1.updates.filter (fun r => r.docName == d) :=
      List.mem_filter.mpr ⟨hr, by simp [hd]⟩
    rw [hfilter1] at hrf
    rcases List.mem_singleton.mp hrf with rfl
    norm_num
  have hmem2 : ∃ r ∈ (flushDocument eng db d (eng.merge us).1
      (eng.merge us).2).1.updates, r.docName = d ∧ r.clock = m + 1 :=
    ⟨⟨d, m + 1, 0, (eng.merge us).1⟩, hrec1mem, rfl, rfl⟩
  obtain ⟨hclk2, hfilter2, hsv2, _⟩ := flushDocument_core eng
    (flushDocument eng db d (eng.merge us).1 (eng.merge us).2).1 d
    (eng.merge [(eng.merge us).1]).1 (eng.merge [(eng.merge us).1]).2 (m + 1)
    hub2 hmem2 (by omega) hlen2
  have hfind1 : findUpdates (flushDocument eng db d (eng.merge us).1
      (eng.merge us).2).1 d = [⟨d, m + 1, 0, (eng.merge us).1⟩] := by
    rw [findUpdates, hfilter1]
    rfl
  have hconv0 : convertMongoUpdates ([] : List UpdateRecord) = .ok [] := by
    rw [convertMongoUpdates]
  have hconv1 : convertMongoUpdates [⟨d, m + 1, 0, (eng.merge us).1⟩] =
      .ok [(eng.merge us).1] :=
    convertMongoUpdates_cons_plain _ [] rfl [] hconv0
  have hus2 : getMongoUpdates (flushDocument eng db d (eng.merge us).1
      (eng.merge us).2).1 d = .ok [(eng.merge us).1] := by
    rw [getMongoUpdates, hfind1]
    exact hconv1
  refine ⟨(flushDocument eng (flushDocument eng db d (eng.merge us).1
      (eng.merge us).2).1 d (eng.merge [(eng.merge us).1]).1
      (eng.merge [(eng.merge us).1]).2).1, hp1, ?_, hsv1, ?_, ?_, ?_⟩
  · simp only [pFlushDocument, hus2]
    rfl
  · rw [hsv2, hcoh]
    have hcast : (((m + 1 : Nat)) : Int) + 1 = (m : Int) + 2 := by
      push_cast
      ring
    rw [hcast]
  · rw [hfilter1]
    simp
  · rw [hfilter2]
    simp

/-- The first flush's consolidated records for the witness store. -/
theorem flushDocument_idempotent_witness :
    getMongoUpdates dbFlush "doc1" = .ok [[1], [2], [3]] ∧
    (∀ r ∈ dbFlush.updates, r.docName = "doc1" → (r.clock : Int) ≤ ((2 : Nat) : Int)) ∧
    (∃ r ∈ dbFlush.updates, r.docName = "doc1" ∧ r.clock = 2) ∧
    2 + 2 < BITS32 ∧
    (engTest.merge [[1], [2], [3]]).1.length ≤ MAX_DOCUMENT_SIZE ∧
    (engTest.merge [(engTest.merge [[1], [2], [3]]).1]).1.length ≤ MAX_DOCUMENT_SIZE ∧
    (engTest.merge [(engTest.merge [[1], [2], [3]]).1]).2 =
      (engTest.merge [[1], [2], [3]]).2 ∧
    (∃ db1 db2 : DB,
      pFlushDocument engTest dbFlush "doc1" = .ok db1 ∧
      pFlushDocument engTest db1 "doc1" = .ok db2 ∧
      svLookup db1 "doc1" =
        some (encodeStateVector (((2 : Nat) : Int) + 1)
          (engTest.merge [[1], [2], [3]]).2) ∧
      svLookup db2 "doc1" =
        some (encodeStateVector (((2 : Nat) : Int) + 2)
          (engTest.merge [[1], [2], [3]]).2) ∧
      db1.updates.filter (fun r => r.docName == "doc1") ≠ [] ∧
      db2.updates.filter (fun r => r.docName == "doc1") ≠ []) := by
  have hfind : findUpdates dbFlush "doc1" =
      [⟨"doc1", 0, 0, [1]⟩, ⟨"doc1", 1, 0, [2]⟩, ⟨"doc1", 2, 0, [3]⟩] := by decide
  have hconv0 : convertMongoUpdates ([] : List UpdateRecord) = .ok [] := by
    rw [convertMongoUpdates]
  have hconv3 : convertMongoUpdates [⟨"doc1", 2, 0, [3]⟩] = .ok [[3]] :=
    convertMongoUpdates_cons_plain _ [] rfl [] hconv0
  have hconv2 : convertMongoUpdates [⟨"doc1", 1, 0, [2]⟩, ⟨"doc1", 2, 0, [3]⟩] =
      .ok [[2], [3]] :=
    convertMongoUpdates_cons_plain _ _ rfl [[3]] hconv3
  have hconv1 : convertMongoUpdates
      [⟨"doc1", 0, 0, [1]⟩, ⟨"doc1", 1, 0, [2]⟩, ⟨"doc1", 2, 0, [3]⟩] =
      .ok [[1], [2], [3]] :=
    convertMongoUpdates_cons_plain _ _ rfl [[2], [3]] hconv2
  have hus : getMongoUpdates dbFlush "doc1" = .ok [[1], [2], [3]] := by
    rw [getMongoUpdates, hfind]
    exact hconv1
  have hub : ∀ r ∈ dbFlush.updates, r.docName = "doc1" →
      (r.clock : Int) ≤ ((2 : Nat) : Int) := by decide
  have hmem : ∃ r ∈ dbFlush.updates, r.docName = "doc1" ∧ r.clock = 2 := by decide
  have hm : 2 + 2 < BITS32 := by decide
  have hlen1 : (engTest.merge [[1], [2], [3]]).1.length ≤ MAX_DOCUMENT_SIZE := by
    decide
  have hlen2 : (engTest.merge [(engTest.merge [[1], [2], [3]]).1]).1.length ≤
      MAX_DOCUMENT_SIZE := by decide
  have hcoh : (engTest.merge [(engTest.merge [[1], [2], [3]]).1]).2 =
      (engTest.merge [[1], [2], [3]]).2 := by decide
  exact ⟨hus, hub, hmem, hm, hlen1, hlen2, hcoh,
    flushDocument_idempotent engTest dbFlush "doc1" 2 [[1], [2], [3]]
      hus hub hmem hm hlen1 hlen2 hcoh⟩

end YMongo
